import Mathlib

/-!
Verification of the control-plane state exporter of up-cli
(src/internal/sos/exporter/export.go).

The Go code is shallowly embedded: custom resource definitions, the type
filter `shouldExport`, the storage-version resolution `customResourceGVR`,
the paginated CRD listing `fetchAllCRDs`, and the orchestrator `Export`
(with its `archive` helper) become Lean functions.  External collaborators
(the Kubernetes API server, the REST mapper, the filesystem) are modelled
as explicit oracle parameters and an explicit filesystem state; the
observable writes of a run are additionally recorded in an event trace so
that ordering and counting properties can be stated.  The per-type
fetch/persist step (`ExportResources`) and the metadata writer
(`ExportMetadata`) are declared by export.go but implemented outside src/,
so those two steps are modelled from the spec where noted.
-/

set_option autoImplicit false

namespace UpExporter

/-- Kubernetes owner reference; the exporter only reads `apiVersion`. -/
structure OwnerReference where
  apiVersion : String
deriving DecidableEq, Repr

/-- One declared version of a custom resource definition.
`subresourcesStatus` models `vr.Subresources != nil && vr.Subresources.Status != nil`,
the only fact about subresources the exporter reads. -/
structure CRDVersion where
  name : String
  storage : Bool
  subresourcesStatus : Bool
deriving DecidableEq, Repr

/-- The `spec.names` block of a CRD; the exporter reads `kind` and `categories`. -/
structure CRDNames where
  kind : String
  categories : List String
deriving DecidableEq, Repr

/-- The `spec` block of a CRD, restricted to the fields the exporter reads. -/
structure CRDSpec where
  group : String
  names : CRDNames
  versions : List CRDVersion
deriving DecidableEq, Repr

/-- A custom resource definition: metadata name, metadata owner references,
and the spec fields the exporter reads. -/
structure CustomResourceDefinition where
  name : String
  ownerReferences : List OwnerReference
  spec : CRDSpec
deriving DecidableEq, Repr

/-- Model of Go `strings.HasSuffix`, computed on the underlying character
lists so that it reduces inside the kernel. -/
def hasSuffix (s suffix : String) : Bool :=
  suffix.data.isSuffixOf s.data

/-- Embedding of `shouldExport` (export.go lines 172-181): a CRD is exported
when some owner reference has apiVersion exactly `pkg.crossplane.io/v1`, or
its name ends with `.crossplane.io`.  A pure predicate. -/
def shouldExport (crd : CustomResourceDefinition) : Bool :=
  crd.ownerReferences.any (fun ref => ref.apiVersion == "pkg.crossplane.io/v1") ||
    hasSuffix crd.name ".crossplane.io"

/-- The API group of a Kubernetes apiVersion string: the part before the
first slash (the whole string when there is no slash, as for core-group
versions).  Used to state the filter policy the way the spec words it. -/
def apiGroupOf (apiVersion : String) : String :=
  ⟨apiVersion.data.takeWhile (fun c => c != '/')⟩

/-- Filter policy as the spec words it (sections 4.1 and 8): in scope when
some owner reference's API group is the package-management group
`pkg.crossplane.io`, or the name ends with the reserved domain suffix. -/
def inScopeSpec (crd : CustomResourceDefinition) : Bool :=
  crd.ownerReferences.any (fun ref => apiGroupOf ref.apiVersion == "pkg.crossplane.io") ||
    hasSuffix crd.name ".crossplane.io"

/-- A CRD whose only owner reference is a package-group reference at version
`v1beta1`, and whose name does not carry the reserved suffix. -/
def crdOwnedByBetaPackage : CustomResourceDefinition :=
  { name := "foos.example.org"
    ownerReferences := [{ apiVersion := "pkg.crossplane.io/v1beta1" }]
    spec := { group := "example.org"
              names := { kind := "Foo", categories := [] }
              versions := [] } }

/-- Modelled from the spec: the fixed module-wide page size constant
`defaultPageSize`, referenced by export.go but defined in a file outside
src/.  The claims depend only on it being one fixed constant. -/
def defaultPageSize : Nat := 500

/-- One page returned by the server when listing CRDs: the page items and
the continuation token (empty on the last page). -/
structure CRDListResult where
  items : List CustomResourceDefinition
  continueToken : String
deriving DecidableEq, Repr

/-- The listing capability of the API server: a request carries the
continuation token and the page-size limit, and either fails or returns a
page. -/
def ListCRDs : Type :=
  String → Nat → Except String CRDListResult

/-- Embedding of the loop of `fetchAllCRDs` (export.go lines 231-251): list
with the fixed page size and the current continuation token, append the
items, stop when the returned token is empty, otherwise continue with that
token.  The Go loop has no bound; `fuel` makes the recursion structural and
is chosen large enough (one unit per page) in the theorems. -/
def fetchAllCRDsLoop (list : ListCRDs) :
    Nat → String → List CustomResourceDefinition →
      Except String (List CustomResourceDefinition)
  | 0, _, _ => .error "out of fuel"
  | fuel + 1, token, acc =>
    match list token defaultPageSize with
    | .error e => .error ("cannot list CRDs: " ++ e)
    | .ok l =>
      if l.continueToken = "" then .ok (acc ++ l.items)
      else fetchAllCRDsLoop list fuel l.continueToken (acc ++ l.items)

/-- Embedding of `fetchAllCRDs`: run the listing loop from the empty
continuation token with an empty accumulator. -/
def fetchAllCRDs (list : ListCRDs) (fuel : Nat) :
    Except String (List CustomResourceDefinition) :=
  fetchAllCRDsLoop list fuel "" []

/-- The server serves the page sequence `pages` starting from `token`: each
request made with the fixed page size and the current token succeeds with
the next page, every non-final page carries a non-empty continuation token,
and the final page carries the empty token. -/
def serves (list : ListCRDs) : String → List CRDListResult → Prop
  | _, [] => True
  | token, page :: rest =>
    list token defaultPageSize = .ok page ∧
      (rest = [] → page.continueToken = "") ∧
      (rest ≠ [] → page.continueToken ≠ "") ∧
      serves list page.continueToken rest

/-- A trivial one-version CRD used in concrete scenarios. -/
def mkCRD (name : String) : CustomResourceDefinition :=
  { name := name
    ownerReferences := []
    spec := { group := "example.crossplane.io"
              names := { kind := "X", categories := [] }
              versions := [{ name := "v1", storage := true, subresourcesStatus := false }] } }

/-- A concrete two-page server: the empty token yields the first page with
continuation token `t1`, and `t1` yields the final page. -/
def twoPageServer : ListCRDs := fun token _limit =>
  if token = "" then
    .ok { items := [mkCRD "as.example.crossplane.io"], continueToken := "t1" }
  else if token = "t1" then
    .ok { items := [mkCRD "bs.example.crossplane.io", mkCRD "cs.example.crossplane.io"],
          continueToken := "" }
  else .error "unknown continue token"

/-- The two pages served by `twoPageServer`. -/
def twoPages : List CRDListResult :=
  [ { items := [mkCRD "as.example.crossplane.io"], continueToken := "t1" },
    { items := [mkCRD "bs.example.crossplane.io", mkCRD "cs.example.crossplane.io"],
      continueToken := "" } ]

/-- A Kubernetes group/kind pair, the key of a REST-mapping query. -/
structure GroupKind where
  group : String
  kind : String
deriving DecidableEq, Repr

/-- A concrete group/version/resource coordinate. -/
structure GroupVersionResource where
  group : String
  version : String
  resource : String
deriving DecidableEq, Repr

/-- The `GroupResource.String()` rendering from apimachinery: `resource.group`,
or just `resource` when the group is empty. -/
def groupResourceString (gvr : GroupVersionResource) : String :=
  if gvr.group = "" then gvr.resource else gvr.resource ++ "." ++ gvr.group

/-- A REST mapping as returned by the mapper; the exporter reads only
`resource`. -/
structure RESTMapping where
  resource : GroupVersionResource
deriving DecidableEq, Repr

/-- The REST-mapping capability of the cluster: group/kind plus a version
either fails or yields a mapping. -/
def RESTMapper : Type :=
  GroupKind → String → Except String RESTMapping

/-- Embedding of the version-selection loop of `customResourceGVR`
(export.go lines 184-189): start from the empty string and overwrite the
choice with the name of every version flagged as storage, so the last
storage-flagged version wins. -/
def storageVersionName (versions : List CRDVersion) : String :=
  versions.foldl (fun version vr => if vr.storage then vr.name else version) ""

/-- The REST-mapping call and error wrapping of `customResourceGVR`
(export.go lines 191-200): query the mapper at the CRD's group and kind and
the given version; on failure wrap the error with the CRD name. -/
def resolveMapping (restMapping : RESTMapper) (crd : CustomResourceDefinition)
    (version : String) : Except String GroupVersionResource :=
  match restMapping ⟨crd.spec.group, crd.spec.names.kind⟩ version with
  | .error e => .error ("cannot get REST mapping for \"" ++ crd.name ++ "\": " ++ e)
  | .ok rm => .ok rm.resource

/-- Embedding of `customResourceGVR` (export.go lines 183-201). -/
def customResourceGVR (restMapping : RESTMapper) (crd : CustomResourceDefinition) :
    Except String GroupVersionResource :=
  resolveMapping restMapping crd (storageVersionName crd.spec.versions)

/-- Embedding of the status-subresource probe of `Export` (export.go lines
118-126): the local `sub` flag is set when some version is flagged storage
and declares a status subresource. -/
def statusSubresource (crd : CustomResourceDefinition) : Bool :=
  crd.spec.versions.any (fun vr => vr.storage && vr.subresourcesStatus)

/-- A filesystem path as a list of segments. -/
abbrev Path := List String

/-- A file in the modelled filesystem: its path, its permission bits, and
whether its content has been completely written (`complete := false` marks
a file created but not fully written, i.e. a partial archive). -/
structure FSFile where
  path : Path
  perm : Nat
  complete : Bool
deriving DecidableEq, Repr

/-- The modelled filesystem: a list of directories and a list of files. -/
structure FS where
  dirs : List Path
  files : List FSFile
deriving DecidableEq, Repr

/-- The empty filesystem. -/
def emptyFS : FS := { dirs := [], files := [] }

/-- Create a directory. -/
def mkDir (d : Path) (fs : FS) : FS :=
  { fs with dirs := d :: fs.dirs }

/-- Write a complete file with the given permission bits. -/
def addFile (p : Path) (perm : Nat) (fs : FS) : FS :=
  { fs with files := fs.files ++ [{ path := p, perm := perm, complete := true }] }

/-- Model of `afero` `Create`: the file comes into existence with the
default creation permission bits 0666 and no content written yet. -/
def createFile (p : Path) (fs : FS) : FS :=
  { fs with files := fs.files ++ [{ path := p, perm := 0o666, complete := false }] }

/-- Change the permission bits of every file at the given path. -/
def chmodFile (p : Path) (perm : Nat) (fs : FS) : FS :=
  { fs with files := fs.files.map (fun f => if f.path = p then { f with perm := perm } else f) }

/-- Mark the file at the given path as completely written. -/
def completeFile (p : Path) (fs : FS) : FS :=
  { fs with files := fs.files.map (fun f => if f.path = p then { f with complete := true } else f) }

/-- Model of `RemoveAll`: delete the directory `d` itself and every
directory and file under it. -/
def removeAll (d : Path) (fs : FS) : FS :=
  { dirs := fs.dirs.filter (fun x => !(d.isPrefixOf x))
    files := fs.files.filter (fun f => !(d.isPrefixOf f.path)) }

/-- A live instance of an exported type; the exporter persists it keyed by
its own name. -/
structure ExportedInstance where
  objName : String
deriving DecidableEq, Repr

/-- An observable write performed during a run, in order of occurrence:
a per-type descriptor write, a per-instance file write, the summary write
(carrying the per-type counts handed to the metadata exporter), and the
three archive steps (create the output file, set its permission bits,
write its content). -/
inductive Event where
  | descriptor (gr : String) (withStatusSubresource : Bool)
  | persist (gr : String) (objName : String)
  | summary (counts : List (String × Nat))
  | archCreate
  | archChmod
  | archWrite
deriving DecidableEq, Repr

/-- Whether an event is the persisting of an instance of the type keyed by
`gr`. -/
def isPersistFor (gr : String) : Event → Bool
  | .persist g _ => g == gr
  | _ => false

/-- Whether an event is the persisting of an instance of any type. -/
def isPersistEvent : Event → Bool
  | .persist _ _ => true
  | _ => false

/-- Events emitted by the per-type export loop. -/
def isLoopEvent : Event → Bool
  | .descriptor _ _ => true
  | .persist _ _ => true
  | _ => false

/-- Events emitted by the archiver. -/
def isArchiveEvent : Event → Bool
  | .archCreate => true
  | .archChmod => true
  | .archWrite => true
  | _ => false

/-- Whether an event is the summary write. -/
def isSummaryEvent : Event → Bool
  | .summary _ => true
  | _ => false

/-- Number of instance files written for the type keyed by `gr` in a trace. -/
def persistCountFor (gr : String) (tr : List Event) : Nat :=
  (tr.filter (isPersistFor gr)).length

/-- Total number of instance files written in a trace. -/
def persistTotal (tr : List Event) : Nat :=
  (tr.filter isPersistEvent).length

/-- Sum of the per-type counts of a counts mapping. -/
def sumCounts (m : List (String × Nat)) : Nat :=
  (m.map (fun p => p.2)).sum

/-- Go map assignment `m[k] = v`: the new binding replaces any old binding
of the same key and all other keys are untouched. -/
def mapInsert (m : List (String × Nat)) (k : String) (v : Nat) : List (String × Nat) :=
  (k, v) :: m.filter (fun p => p.1 != k)

/-- Go map read `m[k]`. -/
def mapLookup (m : List (String × Nat)) (k : String) : Option Nat :=
  match m with
  | [] => none
  | (k2, v) :: rest => if k2 = k then some v else mapLookup rest k

/-- The environment of one `Export` run: the outcomes of every external
collaborator call.  `fetchResult` is the outcome of the initial
`fetchAllCRDs` call (verified separately), `restMapping` the REST mapper,
`listInstances` the outcome of streaming all instances of a coordinate,
and the Booleans are the success of temp-directory creation, of the
metadata write, and of the four archiver steps. -/
structure ExportEnv where
  tempDirOk : Bool
  tmpDir : String
  fetchResult : Except String (List CustomResourceDefinition)
  restMapping : RESTMapper
  listInstances : GroupVersionResource → Except String (List ExportedInstance)
  metadataOk : Bool
  filesFromDiskOk : Bool
  createOk : Bool
  chmodOk : Bool
  archiveWriteOk : Bool
  outputArchive : Path

/-- Modelled from the spec: the persister's type-descriptor write (the
`FileSystemPersister` is constructed in export.go but implemented outside
src/): one descriptor file inside the type's subtree under the staging
root. -/
def persistType (tmp gr : String) (fs : FS) : FS :=
  addFile [tmp, gr, "crossplane.yaml"] 0o600 fs

/-- Modelled from the spec: the persister's instance write, one file per
instance under the type's subtree, deterministically named after the
instance. -/
def persistInstance (tmp gr objName : String) (fs : FS) : FS :=
  addFile [tmp, gr, objName ++ ".yaml"] 0o600 fs

/-- The staging path of the top-level summary file.  Modelled from the
spec: one top-level summary file written by the metadata exporter. -/
def summaryPath (tmp : String) : Path :=
  [tmp, "export.yaml"]

/-- Embedding of `archive` (export.go lines 203-229): collect the staging
files, create the output file, chmod it to 0600, then write the compressed
content; each step can fail, and a failing step returns without removing
what the earlier steps created. -/
def archive (env : ExportEnv) (fs : FS) : Except String Unit × FS × List Event :=
  if env.filesFromDiskOk then
    if env.createOk then
      let fs1 := createFile env.outputArchive fs
      if env.chmodOk then
        let fs2 := chmodFile env.outputArchive 0o600 fs1
        if env.archiveWriteOk then
          (.ok (), completeFile env.outputArchive fs2, [.archCreate, .archChmod, .archWrite])
        else (.error "archive write failed", fs2, [.archCreate, .archChmod])
      else (.error "chmod failed", fs1, [.archCreate])
    else (.error "create failed", fs, [])
  else (.error "files from disk failed", fs, [])

/-- The filesystem writes of one successful per-type step: the type
descriptor, then one file per instance. -/
def loopStepFS (tmp gr : String) (insts : List ExportedInstance) (fs : FS) : FS :=
  insts.foldl (fun f i => persistInstance tmp gr i.objName f) (persistType tmp gr fs)

/-- The events of one successful per-type step: the descriptor write, then
one persist event per instance. -/
def loopStepEvents (gr : String) (sub : Bool) (insts : List ExportedInstance) : List Event :=
  Event.descriptor gr sub :: insts.map (fun i => Event.persist gr i.objName)

/-- Embedding of the per-CRD loop of `Export` (export.go lines 109-142):
resolve the coordinate, compute the status-subresource flag, fetch and
persist all instances (the fetch/persist step `ExportResources` is
modelled from the spec: one descriptor plus one file per instance, and the
returned count is the number of instances persisted), and record the count
under the `GroupResource` string key.  The first failure aborts with the
wrapped error of export.go. -/
def exportLoop (env : ExportEnv) (tmp : String) :
    List CustomResourceDefinition → List (String × Nat) → FS →
      Except String Unit × List (String × Nat) × FS × List Event
  | [], counts, fs => (.ok (), counts, fs, [])
  | crd :: rest, counts, fs =>
    match customResourceGVR env.restMapping crd with
    | .error e =>
      (.error ("cannot get GVR for \"" ++ crd.name ++ "\": " ++ e), counts, fs, [])
    | .ok gvr =>
      match env.listInstances gvr with
      | .error e =>
        (.error ("cannot export resources for \"" ++ crd.name ++ "\": " ++ e), counts, fs, [])
      | .ok insts =>
        let gr := groupResourceString gvr
        let res := exportLoop env tmp rest (mapInsert counts gr insts.length)
          (loopStepFS tmp gr insts fs)
        (res.1, res.2.1, res.2.2.1,
          loopStepEvents gr (statusSubresource crd) insts ++ res.2.2.2)

/-- The body of `Export` after the staging directory exists (export.go
lines 83-169): fetch the CRD list, filter it with `shouldExport`, run the
per-type loop, write the summary (the metadata writer `ExportMetadata` is
modelled from the spec: one top-level summary file recording the counts,
written only here), then archive.  Every failure returns the wrapped error
of export.go. -/
def exportBody (env : ExportEnv) (tmp : String) (fs : FS) :
    Except String Unit × FS × List Event :=
  match env.fetchResult with
  | .error e => (.error ("cannot fetch CRDs: " ++ e), fs, [])
  | .ok crdList =>
    let res := exportLoop env tmp (crdList.filter shouldExport) [] fs
    match res.1 with
    | .error e => (.error e, res.2.2.1, res.2.2.2)
    | .ok _ =>
      if env.metadataOk then
        let resA := archive env (addFile (summaryPath tmp) 0o600 res.2.2.1)
        match resA.1 with
        | .error e =>
          (.error ("cannot archive exported state: " ++ e), resA.2.1,
            res.2.2.2 ++ Event.summary res.2.1 :: resA.2.2)
        | .ok _ =>
          (.ok (), resA.2.1, res.2.2.2 ++ Event.summary res.2.1 :: resA.2.2)
      else (.error "cannot write export metadata", res.2.2.1, res.2.2.2)

/-- Embedding of `Export` (export.go lines 68-170): create the staging
directory (failing fast when that fails), run the body, and in every case
remove the staging directory afterwards — the Go `defer fs.RemoveAll`
registered right after the directory is created. -/
def runExport (env : ExportEnv) (fs0 : FS) : Except String Unit × FS × List Event :=
  if env.tempDirOk then
    let res := exportBody env env.tmpDir (mkDir [env.tmpDir] fs0)
    (res.1, removeAll [env.tmpDir] res.2.1, res.2.2)
  else (.error "cannot create temporary directory", fs0, [])

/-- The `GroupResource` keys of the CRDs of a list that resolve, in order. -/
def resolvedGRs (env : ExportEnv) (crds : List CustomResourceDefinition) : List String :=
  crds.filterMap (fun crd =>
    match customResourceGVR env.restMapping crd with
    | .ok gvr => some (groupResourceString gvr)
    | .error _ => none)

/-- A CRD in scope by suffix, with a storage version declaring a status
subresource. -/
def crdXA : CustomResourceDefinition :=
  { name := "xas.example.crossplane.io"
    ownerReferences := []
    spec := { group := "example.crossplane.io"
              names := { kind := "XA", categories := [] }
              versions := [{ name := "v1", storage := true, subresourcesStatus := true }] } }

/-- A second in-scope CRD without a status subresource. -/
def crdXB : CustomResourceDefinition :=
  { name := "xbs.example.crossplane.io"
    ownerReferences := []
    spec := { group := "example.crossplane.io"
              names := { kind := "XB", categories := [] }
              versions := [{ name := "v1", storage := true, subresourcesStatus := false }] } }

/-- An out-of-scope CRD: no owner references and no reserved suffix. -/
def crdOther : CustomResourceDefinition :=
  { name := "others.example.org"
    ownerReferences := []
    spec := { group := "example.org"
              names := { kind := "Other", categories := [] }
              versions := [{ name := "v1", storage := true, subresourcesStatus := false }] } }

/-- An in-scope CRD with no version flagged as storage. -/
def crdNoStorage : CustomResourceDefinition :=
  { name := "nos.example.crossplane.io"
    ownerReferences := []
    spec := { group := "example.crossplane.io"
              names := { kind := "No", categories := [] }
              versions := [{ name := "v1", storage := false, subresourcesStatus := false }] } }

/-- A mapper behaving like a discovery-backed REST mapper for the concrete
scenarios: it knows no mapping for the empty version (no storage version
resolved) and otherwise pluralises the kind in a trivial way. -/
def happyMapper : RESTMapper := fun gk version =>
  if version = "" then .error "no matches for kind"
  else .ok { resource := { group := gk.group, version := version,
                           resource := if gk.kind = "XA" then "xas" else "xbs" } }

/-- Concrete instance listings: two instances of the XA type, one of the
XB type. -/
def happyInstances : GroupVersionResource → Except String (List ExportedInstance) :=
  fun gvr =>
    if gvr.resource = "xas" then .ok [{ objName := "a1" }, { objName := "a2" }]
    else .ok [{ objName := "b1" }]

/-- A fully successful run environment over two in-scope types (and one
filtered-out type). -/
def happyEnv : ExportEnv :=
  { tempDirOk := true
    tmpDir := "up-staging"
    fetchResult := .ok [crdXA, crdOther, crdXB]
    restMapping := happyMapper
    listInstances := happyInstances
    metadataOk := true
    filesFromDiskOk := true
    createOk := true
    chmodOk := true
    archiveWriteOk := true
    outputArchive := ["backup.tar.gz"] }

/-- The successful environment with a failing archive content write. -/
def envArchiveWriteFails : ExportEnv :=
  { happyEnv with archiveWriteOk := false }

/-- The successful environment with a failing metadata write. -/
def envMetadataFails : ExportEnv :=
  { happyEnv with metadataOk := false }

/-- The successful environment fetching a CRD with no storage version. -/
def envNoStorage : ExportEnv :=
  { happyEnv with fetchResult := .ok [crdNoStorage] }

/-- A CRD with two versions flagged as storage. -/
def crdTwoStorage : CustomResourceDefinition :=
  { name := "twos.example.crossplane.io"
    ownerReferences := []
    spec := { group := "example.crossplane.io"
              names := { kind := "Two", categories := [] }
              versions := [{ name := "v1", storage := true, subresourcesStatus := true },
                           { name := "v2", storage := true, subresourcesStatus := false }] } }

/-! ## Theorems -/

/-- Claim C1 counterexample: the claimed equivalence between `shouldExport` and
membership of an owner reference in the package-management API group fails
for `crdOwnedByBetaPackage`: its owner reference has API group
`pkg.crossplane.io` but `shouldExport` returns false, because the code
compares the full apiVersion against the literal `pkg.crossplane.io/v1`. -/
theorem shouldExport_not_group_based :
    ¬ (shouldExport crdOwnedByBetaPackage = true ↔
        ((∃ ref ∈ crdOwnedByBetaPackage.ownerReferences,
            apiGroupOf ref.apiVersion = "pkg.crossplane.io") ∨
          hasSuffix crdOwnedByBetaPackage.name ".crossplane.io" = true)) := by
  decide

/-- Claim C1 amended: `shouldExport` returns true exactly when some owner
reference's apiVersion is the literal `pkg.crossplane.io/v1`, or the CRD
name ends with `.crossplane.io`; being a Lean function it has no side
effects. -/
theorem shouldExport_iff (crd : CustomResourceDefinition) :
    shouldExport crd = true ↔
      ((∃ ref ∈ crd.ownerReferences, ref.apiVersion = "pkg.crossplane.io/v1") ∨
        hasSuffix crd.name ".crossplane.io" = true) := by
  simp [shouldExport, List.any_eq_true, beq_iff_eq]

theorem fetchAllCRDsLoop_succ (list : ListCRDs) (fuel : Nat) (token : String)
    (acc : List CustomResourceDefinition) :
    fetchAllCRDsLoop list (fuel + 1) token acc =
      match list token defaultPageSize with
      | .error e => .error ("cannot list CRDs: " ++ e)
      | .ok l =>
        if l.continueToken = "" then .ok (acc ++ l.items)
        else fetchAllCRDsLoop list fuel l.continueToken (acc ++ l.items) := rfl

theorem fetchAllCRDsLoop_serves (list : ListCRDs) :
    ∀ (pages : List CRDListResult) (token : String)
      (acc : List CustomResourceDefinition),
      pages ≠ [] → serves list token pages →
      fetchAllCRDsLoop list pages.length token acc =
        .ok (acc ++ (pages.map (fun p => p.items)).flatten) := by
  intro pages
  induction pages with
  | nil => intro token acc h _; exact absurd rfl h
  | cons page rest ih =>
    intro token acc _ hs
    obtain ⟨hreq, hlast, hmid, hrest⟩ := hs
    cases rest with
    | nil =>
      simp [fetchAllCRDsLoop, hreq, hlast rfl]
    | cons q qs =>
      have hne2 : page.continueToken ≠ "" := hmid (by simp)
      have hstep := ih page.continueToken (acc ++ page.items) (by simp) hrest
      rw [List.length_cons, fetchAllCRDsLoop_succ, hreq]
      dsimp only
      rw [if_neg hne2, hstep]
      simp [List.append_assoc]

/-- Claim C2: for a server-side listing split into the non-empty page sequence
`pages`, each non-final page with a non-empty continuation token and the
final page with an empty one, `fetchAllCRDs` (requesting every page with
the fixed page-size constant and threading each returned token into the
next request) returns exactly the in-order concatenation of the pages'
items, and the length of the result is the total item count. -/
theorem fetchAllCRDs_complete (list : ListCRDs) (pages : List CRDListResult)
    (hne : pages ≠ []) (hserves : serves list "" pages) :
    fetchAllCRDs list pages.length = .ok ((pages.map (fun p => p.items)).flatten) ∧
      ((pages.map (fun p => p.items)).flatten).length =
        (pages.map (fun p => p.items.length)).sum := by
  constructor
  · have := fetchAllCRDsLoop_serves list pages "" [] hne hserves
    simpa [fetchAllCRDs] using this
  · rw [List.length_flatten, List.map_map]
    rfl

/-- Claim C2 witness: the pagination theorem applied to the concrete two-page
server, with both hypotheses discharged. -/
theorem fetchAllCRDs_complete_witness :
    fetchAllCRDs twoPageServer twoPages.length =
        .ok ((twoPages.map (fun p => p.items)).flatten) ∧
      ((twoPages.map (fun p => p.items)).flatten).length =
        (twoPages.map (fun p => p.items.length)).sum :=
  fetchAllCRDs_complete twoPageServer twoPages (by decide)
    (by
      refine ⟨rfl, ?_, ?_, rfl, ?_, ?_, trivial⟩ <;> decide)

theorem getLast?_cons_ne {α : Type} (a : α) {l : List α} (h : l ≠ []) :
    (a :: l).getLast? = l.getLast? := by
  cases l with
  | nil => exact absurd rfl h
  | cons b m => simp [List.getLast?_cons_cons]

theorem storageVersionName_eq (versions : List CRDVersion) :
    storageVersionName versions =
      match (versions.filter (fun vr => vr.storage)).getLast? with
      | some vr => vr.name
      | none => "" := by
  suffices h : ∀ (vs : List CRDVersion) (init : String),
      vs.foldl (fun version vr => if vr.storage then vr.name else version) init =
        match (vs.filter (fun vr => vr.storage)).getLast? with
        | some vr => vr.name
        | none => init by
    exact h versions ""
  intro vs
  induction vs with
  | nil => intro init; rfl
  | cons v rest ih =>
    intro init
    rw [List.foldl_cons, ih]
    rcases hlast : (rest.filter (fun vr => vr.storage)).getLast? with _ | u
    · have hrest : rest.filter (fun vr => vr.storage) = [] :=
        List.getLast?_eq_none_iff.mp hlast
      cases hv : v.storage <;> simp [List.filter_cons, hv, hrest]
    · have hne : rest.filter (fun vr => vr.storage) ≠ [] := by
        intro h
        rw [h] at hlast
        simp at hlast
      cases hv : v.storage <;>
        simp [List.filter_cons, hv, getLast?_cons_ne _ hne, hlast]

/-- Claim C10: when more than one declared version is flagged as storage,
`customResourceGVR` queries the REST mapper with the name of the last
storage-flagged version in declaration order (each later storage version
overwrites the earlier choice), rather than failing or using the first. -/
theorem customResourceGVR_last_storage (restMapping : RESTMapper)
    (crd : CustomResourceDefinition)
    (h : 1 < (crd.spec.versions.filter (fun vr => vr.storage)).length) :
    ∃ vr, (crd.spec.versions.filter (fun vr => vr.storage)).getLast? = some vr ∧
      customResourceGVR restMapping crd = resolveMapping restMapping crd vr.name := by
  have hne : crd.spec.versions.filter (fun vr => vr.storage) ≠ [] := by
    intro hnil
    rw [hnil] at h
    exact absurd h (by simp)
  rcases hlast : (crd.spec.versions.filter (fun vr => vr.storage)).getLast? with _ | vr
  · exact absurd (List.getLast?_eq_none_iff.mp hlast) hne
  · refine ⟨vr, hlast, ?_⟩
    show resolveMapping restMapping crd (storageVersionName crd.spec.versions) = _
    rw [storageVersionName_eq, hlast]

/-- Claim C10 witness: for the concrete CRD with storage versions `v1` and `v2`,
resolution uses `v2`. -/
theorem customResourceGVR_last_storage_witness :
    ∃ vr, (crdTwoStorage.spec.versions.filter (fun vr => vr.storage)).getLast? = some vr ∧
      customResourceGVR happyMapper crdTwoStorage =
        resolveMapping happyMapper crdTwoStorage vr.name :=
  customResourceGVR_last_storage happyMapper crdTwoStorage (by decide)

theorem any_storage_and_filter (vs : List CRDVersion) :
    vs.any (fun vr => vr.storage && vr.subresourcesStatus) =
      (vs.filter (fun vr => vr.storage)).any (fun vr => vr.subresourcesStatus) := by
  induction vs with
  | nil => rfl
  | cons v rest ih =>
    rw [List.any_cons, List.filter_cons]
    cases hv : v.storage
    · rw [Bool.false_and, Bool.false_or, ih, if_neg (by decide)]
    · rw [Bool.true_and, if_pos rfl, List.any_cons, ih]

/-- Claim C8: when the CRD has exactly one version flagged as storage, the
status-subresource flag recorded in the per-type descriptor (`sub` in
export.go, stored as `WithStatusSubresource`) is true exactly when that
storage version declares a status subresource. -/
theorem statusSubresource_eq_storage_version (crd : CustomResourceDefinition)
    (vr : CRDVersion)
    (h : crd.spec.versions.filter (fun v => v.storage) = [vr]) :
    statusSubresource crd = vr.subresourcesStatus := by
  rw [statusSubresource, any_storage_and_filter, h]
  simp

/-- Claim C8 witness: the CRD `crdXA` has the unique storage version `v1` with a
status subresource, and its descriptor flag is true. -/
theorem statusSubresource_eq_storage_version_witness :
    crdXA.spec.versions.filter (fun v => v.storage) =
        [{ name := "v1", storage := true, subresourcesStatus := true }] ∧
      statusSubresource crdXA =
        ({ name := "v1", storage := true, subresourcesStatus := true } : CRDVersion).subresourcesStatus :=
  ⟨by decide,
    statusSubresource_eq_storage_version crdXA
      { name := "v1", storage := true, subresourcesStatus := true } (by decide)⟩

theorem isLoopEvent_not_archive {e : Event} (h : isLoopEvent e = true) :
    isArchiveEvent e = false := by
  cases e <;> simp_all [isLoopEvent, isArchiveEvent]

theorem isLoopEvent_not_summary {e : Event} (h : isLoopEvent e = true) :
    isSummaryEvent e = false := by
  cases e <;> simp_all [isLoopEvent, isSummaryEvent]

theorem removeAll_clean (d : Path) (fs : FS) :
    (∀ x ∈ (removeAll d fs).dirs, d.isPrefixOf x = false) ∧
      (∀ f ∈ (removeAll d fs).files, d.isPrefixOf f.path = false) := by
  constructor
  · intro x hx
    have := (List.mem_filter.mp hx).2
    simpa using this
  · intro f hf
    have := (List.mem_filter.mp hf).2
    simpa using this

/-- Claim C5: whenever the staging directory was successfully created, no
directory and no file under the staging root (the root itself included)
survives the call, on every exit path. -/
theorem export_cleanup (env : ExportEnv) (fs0 : FS) (h : env.tempDirOk = true) :
    (∀ x ∈ (runExport env fs0).2.1.dirs, [env.tmpDir].isPrefixOf x = false) ∧
      (∀ f ∈ (runExport env fs0).2.1.files, [env.tmpDir].isPrefixOf f.path = false) := by
  rw [runExport, if_pos h]
  exact removeAll_clean _ _

/-- Claim C5 witness: the cleanup theorem applied to the concrete successful
environment over the empty filesystem. -/
theorem export_cleanup_witness :
    (∀ x ∈ (runExport happyEnv emptyFS).2.1.dirs,
        [happyEnv.tmpDir].isPrefixOf x = false) ∧
      (∀ f ∈ (runExport happyEnv emptyFS).2.1.files,
        [happyEnv.tmpDir].isPrefixOf f.path = false) :=
  export_cleanup happyEnv emptyFS rfl

theorem exportLoop_nil (env : ExportEnv) (tmp : String) (counts : List (String × Nat))
    (fs : FS) : exportLoop env tmp [] counts fs = (.ok (), counts, fs, []) := rfl

theorem exportLoop_cons_resolveError (env : ExportEnv) (tmp : String)
    (crd : CustomResourceDefinition) (rest : List CustomResourceDefinition)
    (counts : List (String × Nat)) (fs : FS) (e : String)
    (hg : customResourceGVR env.restMapping crd = .error e) :
    exportLoop env tmp (crd :: rest) counts fs =
      (.error ("cannot get GVR for \"" ++ crd.name ++ "\": " ++ e), counts, fs, []) := by
  rw [exportLoop, hg]

theorem exportLoop_cons_listError (env : ExportEnv) (tmp : String)
    (crd : CustomResourceDefinition) (rest : List CustomResourceDefinition)
    (counts : List (String × Nat)) (fs : FS) (gvr : GroupVersionResource) (e : String)
    (hg : customResourceGVR env.restMapping crd = .ok gvr)
    (hi : env.listInstances gvr = .error e) :
    exportLoop env tmp (crd :: rest) counts fs =
      (.error ("cannot export resources for \"" ++ crd.name ++ "\": " ++ e), counts, fs, []) := by
  rw [exportLoop, hg]
  dsimp only
  rw [hi]

theorem exportLoop_cons_ok (env : ExportEnv) (tmp : String)
    (crd : CustomResourceDefinition) (rest : List CustomResourceDefinition)
    (counts : List (String × Nat)) (fs : FS) (gvr : GroupVersionResource)
    (insts : List ExportedInstance)
    (hg : customResourceGVR env.restMapping crd = .ok gvr)
    (hi : env.listInstances gvr = .ok insts) :
    exportLoop env tmp (crd :: rest) counts fs =
      ((exportLoop env tmp rest (mapInsert counts (groupResourceString gvr) insts.length)
          (loopStepFS tmp (groupResourceString gvr) insts fs)).1,
       (exportLoop env tmp rest (mapInsert counts (groupResourceString gvr) insts.length)
          (loopStepFS tmp (groupResourceString gvr) insts fs)).2.1,
       (exportLoop env tmp rest (mapInsert counts (groupResourceString gvr) insts.length)
          (loopStepFS tmp (groupResourceString gvr) insts fs)).2.2.1,
       loopStepEvents (groupResourceString gvr) (statusSubresource crd) insts ++
         (exportLoop env tmp rest (mapInsert counts (groupResourceString gvr) insts.length)
            (loopStepFS tmp (groupResourceString gvr) insts fs)).2.2.2) := by
  rw [exportLoop, hg]
  dsimp only
  rw [hi]

theorem persistInstances_files (tmp gr : String) :
    ∀ (insts : List ExportedInstance) (fs : FS) (f : FSFile),
      f ∈ (insts.foldl (fun a i => persistInstance tmp gr i.objName a) fs).files →
        f ∈ fs.files ∨ f.path.head? = some tmp := by
  intro insts
  induction insts with
  | nil => intro fs f h; exact Or.inl h
  | cons i rest ih =>
    intro fs f h
    rw [List.foldl_cons] at h
    rcases ih _ f h with h1 | h2
    · simp only [persistInstance, addFile] at h1
      rcases List.mem_append.mp h1 with h3 | h4
      · exact Or.inl h3
      · right
        rw [List.mem_singleton.mp h4]
        rfl
    · exact Or.inr h2

theorem loopStepFS_files (tmp gr : String) (insts : List ExportedInstance) (fs : FS)
    (f : FSFile) (h : f ∈ (loopStepFS tmp gr insts fs).files) :
    f ∈ fs.files ∨ f.path.head? = some tmp := by
  rcases persistInstances_files tmp gr insts (persistType tmp gr fs) f h with h1 | h2
  · simp only [persistType, addFile] at h1
    rcases List.mem_append.mp h1 with h3 | h4
    · exact Or.inl h3
    · right
      rw [List.mem_singleton.mp h4]
      rfl
  · exact Or.inr h2

theorem exportLoop_files (env : ExportEnv) (tmp : String) :
    ∀ (crds : List CustomResourceDefinition) (counts : List (String × Nat)) (fs : FS)
      (f : FSFile), f ∈ (exportLoop env tmp crds counts fs).2.2.1.files →
      f ∈ fs.files ∨ f.path.head? = some tmp := by
  intro crds
  induction crds with
  | nil => intro counts fs f h; exact Or.inl h
  | cons crd rest ih =>
    intro counts fs f h
    rcases hg : customResourceGVR env.restMapping crd with e | gvr
    · rw [exportLoop_cons_resolveError env tmp crd rest counts fs e hg] at h
      exact Or.inl h
    · rcases hi : env.listInstances gvr with e | insts
      · rw [exportLoop_cons_listError env tmp crd rest counts fs gvr e hg hi] at h
        exact Or.inl h
      · rw [exportLoop_cons_ok env tmp crd rest counts fs gvr insts hg hi] at h
        rcases ih _ _ f h with h1 | h2
        · exact loopStepFS_files tmp (groupResourceString gvr) insts fs f h1
        · exact Or.inr h2

theorem exportLoop_events (env : ExportEnv) (tmp : String) :
    ∀ (crds : List CustomResourceDefinition) (counts : List (String × Nat)) (fs : FS)
      (e : Event), e ∈ (exportLoop env tmp crds counts fs).2.2.2 →
      isLoopEvent e = true := by
  intro crds
  induction crds with
  | nil => intro counts fs e h; exact absurd h (List.not_mem_nil e)
  | cons crd rest ih =>
    intro counts fs ev h
    rcases hg : customResourceGVR env.restMapping crd with e | gvr
    · rw [exportLoop_cons_resolveError env tmp crd rest counts fs e hg] at h
      exact absurd h (List.not_mem_nil ev)
    · rcases hi : env.listInstances gvr with e | insts
      · rw [exportLoop_cons_listError env tmp crd rest counts fs gvr e hg hi] at h
        exact absurd h (List.not_mem_nil ev)
      · rw [exportLoop_cons_ok env tmp crd rest counts fs gvr insts hg hi] at h
        rcases List.mem_append.mp h with h1 | h2
        · rcases List.mem_cons.mp h1 with h3 | h4
          · rw [h3]; rfl
          · obtain ⟨i, _, hi2⟩ := List.mem_map.mp h4
            rw [← hi2]; rfl
        · exact ih _ _ ev h2

theorem exportLoop_error_of_mem (env : ExportEnv) (tmp : String)
    (crd : CustomResourceDefinition) (m : String)
    (hresolve : customResourceGVR env.restMapping crd = .error m) :
    ∀ (crds : List CustomResourceDefinition) (counts : List (String × Nat)) (fs : FS),
      crd ∈ crds → ∃ e, (exportLoop env tmp crds counts fs).1 = .error e := by
  intro crds
  induction crds with
  | nil => intro counts fs h; exact absurd h (List.not_mem_nil crd)
  | cons c rest ih =>
    intro counts fs hmem
    rcases hg : customResourceGVR env.restMapping c with e | gvr
    · exact ⟨_, by rw [exportLoop_cons_resolveError env tmp c rest counts fs e hg]⟩
    · rcases hi : env.listInstances gvr with e | insts
      · exact ⟨_, by rw [exportLoop_cons_listError env tmp c rest counts fs gvr e hg hi]⟩
      · rcases List.mem_cons.mp hmem with hc | hr
        · rw [← hc] at hg
          rw [hresolve] at hg
          exact absurd hg (by simp)
        · obtain ⟨e, he⟩ := ih (mapInsert counts (groupResourceString gvr) insts.length)
            (loopStepFS tmp (groupResourceString gvr) insts fs) hr
          exact ⟨e, by rw [exportLoop_cons_ok env tmp c rest counts fs gvr insts hg hi]; exact he⟩

theorem mapLookup_filter_ne (k k2 : String) (h : k2 ≠ k) :
    ∀ m : List (String × Nat),
      mapLookup (m.filter (fun p => p.1 != k)) k2 = mapLookup m k2 := by
  intro m
  induction m with
  | nil => rfl
  | cons p rest ih =>
    by_cases hp : p.1 = k
    · rw [List.filter_cons, if_neg (by simp [hp]), ih, mapLookup,
        if_neg (fun hk => h (by rw [← hk, hp]))]
    · rw [List.filter_cons, if_pos (by simp [hp]), mapLookup, mapLookup]
      by_cases hp2 : p.1 = k2
      · rw [if_pos hp2, if_pos hp2]
      · rw [if_neg hp2, if_neg hp2, ih]

theorem mapLookup_insert_self (m : List (String × Nat)) (k : String) (v : Nat) :
    mapLookup (mapInsert m k v) k = some v := by
  rw [mapInsert, mapLookup, if_pos rfl]

theorem mapLookup_insert_ne (m : List (String × Nat)) (k k2 : String) (v : Nat)
    (h : k2 ≠ k) : mapLookup (mapInsert m k v) k2 = mapLookup m k2 := by
  rw [mapInsert, mapLookup, if_neg (fun hk => h hk.symm), mapLookup_filter_ne k k2 h]

theorem filter_eq_self_of_lookup_none (k : String) :
    ∀ m : List (String × Nat), mapLookup m k = none →
      m.filter (fun p => p.1 != k) = m := by
  intro m
  induction m with
  | nil => intro _; rfl
  | cons p rest ih =>
    intro h
    rw [mapLookup] at h
    by_cases hp : p.1 = k
    · rw [if_pos hp] at h
      exact absurd h (by simp)
    · rw [if_neg hp] at h
      rw [List.filter_cons, if_pos (by simp [hp]), ih h]

theorem sumCounts_insert (m : List (String × Nat)) (k : String) (v : Nat)
    (h : mapLookup m k = none) :
    sumCounts (mapInsert m k v) = v + sumCounts m := by
  rw [mapInsert, filter_eq_self_of_lookup_none k m h, sumCounts, sumCounts]
  simp

theorem persistCountFor_append (gr : String) (t1 t2 : List Event) :
    persistCountFor gr (t1 ++ t2) = persistCountFor gr t1 + persistCountFor gr t2 := by
  rw [persistCountFor, persistCountFor, persistCountFor, List.filter_append,
    List.length_append]

theorem persistTotal_append (t1 t2 : List Event) :
    persistTotal (t1 ++ t2) = persistTotal t1 + persistTotal t2 := by
  rw [persistTotal, persistTotal, persistTotal, List.filter_append, List.length_append]

theorem persistCountFor_loopStep_self (gr : String) (sub : Bool)
    (insts : List ExportedInstance) :
    persistCountFor gr (loopStepEvents gr sub insts) = insts.length := by
  rw [persistCountFor, loopStepEvents, List.filter_cons]
  rw [if_neg (by simp [isPersistFor])]
  have : (insts.map (fun i => Event.persist gr i.objName)).filter (isPersistFor gr) =
      insts.map (fun i => Event.persist gr i.objName) := by
    apply List.filter_eq_self.mpr
    intro e he
    obtain ⟨i, _, hi⟩ := List.mem_map.mp he
    rw [← hi]
    simp [isPersistFor]
  rw [this, List.length_map]

theorem persistCountFor_loopStep_ne (gr gr2 : String) (sub : Bool)
    (insts : List ExportedInstance) (h : gr ≠ gr2) :
    persistCountFor gr2 (loopStepEvents gr sub insts) = 0 := by
  rw [persistCountFor, loopStepEvents, List.filter_cons]
  rw [if_neg (by simp [isPersistFor])]
  have : (insts.map (fun i => Event.persist gr i.objName)).filter (isPersistFor gr2) = [] := by
    apply List.filter_eq_nil_iff.mpr
    intro e he
    obtain ⟨i, _, hi⟩ := List.mem_map.mp he
    rw [← hi]
    simp [isPersistFor, h]
  rw [this]
  rfl

theorem persistTotal_loopStep (gr : String) (sub : Bool)
    (insts : List ExportedInstance) :
    persistTotal (loopStepEvents gr sub insts) = insts.length := by
  rw [persistTotal, loopStepEvents, List.filter_cons]
  rw [if_neg (by simp [isPersistEvent])]
  have : (insts.map (fun i => Event.persist gr i.objName)).filter isPersistEvent =
      insts.map (fun i => Event.persist gr i.objName) := by
    apply List.filter_eq_self.mpr
    intro e he
    obtain ⟨i, _, hi⟩ := List.mem_map.mp he
    rw [← hi]
    rfl
  rw [this, List.length_map]

theorem resolvedGRs_cons_ok (env : ExportEnv) (crd : CustomResourceDefinition)
    (rest : List CustomResourceDefinition) (gvr : GroupVersionResource)
    (hg : customResourceGVR env.restMapping crd = .ok gvr) :
    resolvedGRs env (crd :: rest) =
      groupResourceString gvr :: resolvedGRs env rest := by
  rw [resolvedGRs, List.filterMap_cons]
  rw [hg]
  rfl

theorem resolvedGRs_cons_error (env : ExportEnv) (crd : CustomResourceDefinition)
    (rest : List CustomResourceDefinition) (e : String)
    (hg : customResourceGVR env.restMapping crd = .error e) :
    resolvedGRs env (crd :: rest) = resolvedGRs env rest := by
  rw [resolvedGRs, List.filterMap_cons]
  rw [hg]
  rfl

theorem exportLoop_counts (env : ExportEnv) (tmp : String) :
    ∀ (crds : List CustomResourceDefinition) (counts0 : List (String × Nat)) (fs0 : FS)
      (counts1 : List (String × Nat)) (fs1 : FS) (tr : List Event),
      exportLoop env tmp crds counts0 fs0 = (.ok (), counts1, fs1, tr) →
      (resolvedGRs env crds).Nodup →
      (∀ gr ∈ resolvedGRs env crds, mapLookup counts0 gr = none) →
      (∀ gr ∈ resolvedGRs env crds,
          mapLookup counts1 gr = some (persistCountFor gr tr)) ∧
        (∀ gr, gr ∉ resolvedGRs env crds →
          mapLookup counts1 gr = mapLookup counts0 gr ∧ persistCountFor gr tr = 0) ∧
        sumCounts counts1 = sumCounts counts0 + persistTotal tr := by
  intro crds
  induction crds with
  | nil =>
    intro counts0 fs0 counts1 fs1 tr h _ _
    rw [exportLoop_nil] at h
    simp only [Prod.mk.injEq] at h
    obtain ⟨-, hc, -, ht⟩ := h
    subst hc
    subst ht
    refine ⟨?_, ?_, ?_⟩
    · intro gr hgr
      exact absurd hgr (by simp [resolvedGRs])
    · intro gr _
      exact ⟨rfl, rfl⟩
    · rfl
  | cons crd rest ih =>
    intro counts0 fs0 counts1 fs1 tr h hnodup hnone
    rcases hg : customResourceGVR env.restMapping crd with e | gvr
    · rw [exportLoop_cons_resolveError env tmp crd rest counts0 fs0 e hg] at h
      simp only [Prod.mk.injEq] at h
      exact absurd h.1 (by simp)
    · rcases hi : env.listInstances gvr with e | insts
      · rw [exportLoop_cons_listError env tmp crd rest counts0 fs0 gvr e hg hi] at h
        simp only [Prod.mk.injEq] at h
        exact absurd h.1 (by simp)
      · rw [exportLoop_cons_ok env tmp crd rest counts0 fs0 gvr insts hg hi] at h
        rw [resolvedGRs_cons_ok env crd rest gvr hg] at hnodup hnone ⊢
        rcases hLL : exportLoop env tmp rest
            (mapInsert counts0 (groupResourceString gvr) insts.length)
            (loopStepFS tmp (groupResourceString gvr) insts fs0) with ⟨r, cc, ff, tt⟩
        rw [hLL] at h
        simp only [Prod.mk.injEq] at h
        obtain ⟨hr, hc, -, ht⟩ := h
        subst hr
        rw [← hc, ← ht]
        have hgrnotin := (List.nodup_cons.mp hnodup).1
        have hnodup2 := (List.nodup_cons.mp hnodup).2
        have hih := ih (mapInsert counts0 (groupResourceString gvr) insts.length)
          (loopStepFS tmp (groupResourceString gvr) insts fs0) cc ff tt hLL hnodup2
          (by
            intro gr hgr
            rw [mapLookup_insert_ne counts0 (groupResourceString gvr) gr insts.length
              (fun hgr2 => hgrnotin (hgr2 ▸ hgr))]
            exact hnone gr (List.mem_cons_of_mem _ hgr))
        obtain ⟨hA, hB, hC⟩ := hih
        refine ⟨?_, ?_, ?_⟩
        · intro gr hgr
          rcases List.mem_cons.mp hgr with hgr1 | hgr2
          · subst hgr1
            have hB2 := hB (groupResourceString gvr) hgrnotin
            rw [hB2.1, mapLookup_insert_self, persistCountFor_append,
              persistCountFor_loopStep_self, hB2.2]
            rfl
          · have hne : groupResourceString gvr ≠ gr := by
              intro hgr3
              exact hgrnotin (hgr3 ▸ hgr2)
            rw [hA gr hgr2, persistCountFor_append,
              persistCountFor_loopStep_ne _ _ _ _ hne]
            simp
        · intro gr hgr
          have hne : groupResourceString gvr ≠ gr := by
            intro hgr3
            exact hgr (by rw [← hgr3]; exact List.mem_cons_self _ _)
          have hgr2 : gr ∉ resolvedGRs env rest := fun hmem =>
            hgr (List.mem_cons_of_mem _ hmem)
          have hB2 := hB gr hgr2
          constructor
          · rw [hB2.1,
              mapLookup_insert_ne counts0 (groupResourceString gvr) gr insts.length
                (fun hgr4 => hne hgr4.symm)]
          · rw [persistCountFor_append, persistCountFor_loopStep_ne _ _ _ _ hne, hB2.2]
        · rw [hC, persistTotal_append, persistTotal_loopStep,
            sumCounts_insert counts0 (groupResourceString gvr) insts.length
              (hnone (groupResourceString gvr) (List.mem_cons_self _ _))]
          omega

theorem archive_success_eq (env : ExportEnv) (fs : FS)
    (hd : env.filesFromDiskOk = true) (hc : env.createOk = true)
    (hch : env.chmodOk = true) (hw : env.archiveWriteOk = true) :
    archive env fs =
      (.ok (),
       completeFile env.outputArchive (chmodFile env.outputArchive 0o600
         (createFile env.outputArchive fs)),
       [.archCreate, .archChmod, .archWrite]) := by
  rw [archive, if_pos hd, if_pos hc]
  try dsimp only
  rw [if_pos hch]
  try dsimp only
  rw [if_pos hw]

theorem exportBody_success_eq (env : ExportEnv) (tmp : String) (fs : FS)
    (crdList : List CustomResourceDefinition) (counts : List (String × Nat))
    (fsL : FS) (trL : List Event)
    (hf : env.fetchResult = .ok crdList)
    (hl : exportLoop env tmp (crdList.filter shouldExport) [] fs =
      (.ok (), counts, fsL, trL))
    (hm : env.metadataOk = true) (hd : env.filesFromDiskOk = true)
    (hc : env.createOk = true) (hch : env.chmodOk = true)
    (hw : env.archiveWriteOk = true) :
    exportBody env tmp fs =
      (.ok (),
       completeFile env.outputArchive (chmodFile env.outputArchive 0o600
         (createFile env.outputArchive (addFile (summaryPath tmp) 0o600 fsL))),
       trL ++ Event.summary counts :: [.archCreate, .archChmod, .archWrite]) := by
  rw [exportBody, hf]
  dsimp only
  rw [hl]
  dsimp only
  rw [if_pos hm]
  rw [archive_success_eq env _ hd hc hch hw]

theorem runExport_success_eq (env : ExportEnv) (fs0 : FS)
    (crdList : List CustomResourceDefinition) (counts : List (String × Nat))
    (fsL : FS) (trL : List Event)
    (htd : env.tempDirOk = true)
    (hf : env.fetchResult = .ok crdList)
    (hl : exportLoop env env.tmpDir (crdList.filter shouldExport) []
      (mkDir [env.tmpDir] fs0) = (.ok (), counts, fsL, trL))
    (hm : env.metadataOk = true) (hd : env.filesFromDiskOk = true)
    (hc : env.createOk = true) (hch : env.chmodOk = true)
    (hw : env.archiveWriteOk = true) :
    runExport env fs0 =
      (.ok (),
       removeAll [env.tmpDir]
         (completeFile env.outputArchive (chmodFile env.outputArchive 0o600
           (createFile env.outputArchive (addFile (summaryPath env.tmpDir) 0o600 fsL)))),
       trL ++ Event.summary counts :: [.archCreate, .archChmod, .archWrite]) := by
  rw [runExport, if_pos htd]
  dsimp only
  rw [exportBody_success_eq env env.tmpDir (mkDir [env.tmpDir] fs0) crdList counts fsL
    trL hf hl hm hd hc hch hw]

theorem runExport_ok_inv (env : ExportEnv) (fs0 : FS)
    (h : (runExport env fs0).1 = .ok ()) :
    env.tempDirOk = true ∧ env.metadataOk = true ∧ env.filesFromDiskOk = true ∧
      env.createOk = true ∧ env.chmodOk = true ∧ env.archiveWriteOk = true ∧
      ∃ crdList counts fsL trL,
        env.fetchResult = .ok crdList ∧
        exportLoop env env.tmpDir (crdList.filter shouldExport) []
          (mkDir [env.tmpDir] fs0) = (.ok (), counts, fsL, trL) := by
  by_cases htd : env.tempDirOk = true
  case neg =>
    rw [runExport, if_neg htd] at h
    exact absurd h (by simp)
  rw [runExport, if_pos htd] at h
  dsimp only at h
  rcases hf : env.fetchResult with e | crdList
  · rw [exportBody, hf] at h
    exact absurd h (by simp)
  rw [exportBody, hf] at h
  dsimp only at h
  rcases hl : exportLoop env env.tmpDir (crdList.filter shouldExport) []
      (mkDir [env.tmpDir] fs0) with ⟨r, counts, fsL, trL⟩
  rw [hl] at h
  dsimp only at h
  cases r with
  | error e => exact absurd h (by simp)
  | ok u =>
    cases u
    try dsimp only at h
    by_cases hm : env.metadataOk = true
    case neg =>
      rw [if_neg hm] at h
      exact absurd h (by simp)
    rw [if_pos hm] at h
    try dsimp only at h
    by_cases hd : env.filesFromDiskOk = true
    case neg =>
      rw [archive, if_neg hd] at h
      exact absurd h (by simp)
    by_cases hc : env.createOk = true
    case neg =>
      rw [archive, if_pos hd, if_neg hc] at h
      exact absurd h (by simp)
    by_cases hch : env.chmodOk = true
    case neg =>
      rw [archive, if_pos hd, if_pos hc] at h
      try dsimp only at h
      rw [if_neg hch] at h
      exact absurd h (by simp)
    by_cases hw : env.archiveWriteOk = true
    case neg =>
      rw [archive, if_pos hd, if_pos hc] at h
      try dsimp only at h
      rw [if_pos hch] at h
      try dsimp only at h
      rw [if_neg hw] at h
      exact absurd h (by simp)
    exact ⟨htd, hm, hd, hc, hch, hw, crdList, counts, fsL, trL, rfl, hl⟩

theorem archive_path_cases (env : ExportEnv) (fs : FS) :
    (env.filesFromDiskOk = false ∧ archive env fs = (.error "files from disk failed", fs, [])) ∨
    (env.createOk = false ∧ archive env fs = (.error "create failed", fs, [])) ∨
    (env.chmodOk = false ∧ archive env fs =
      (.error "chmod failed", createFile env.outputArchive fs, [.archCreate])) ∨
    (env.archiveWriteOk = false ∧ archive env fs =
      (.error "archive write failed",
       chmodFile env.outputArchive 0o600 (createFile env.outputArchive fs),
       [.archCreate, .archChmod])) ∨
    (archive env fs =
      (.ok (),
       completeFile env.outputArchive (chmodFile env.outputArchive 0o600
         (createFile env.outputArchive fs)),
       [.archCreate, .archChmod, .archWrite])) := by
  by_cases hd : env.filesFromDiskOk = true
  case neg =>
    refine Or.inl ⟨Bool.not_eq_true _ ▸ hd, ?_⟩
    rw [archive, if_neg hd]
  by_cases hc : env.createOk = true
  case neg =>
    refine Or.inr (Or.inl ⟨Bool.not_eq_true _ ▸ hc, ?_⟩)
    rw [archive, if_pos hd, if_neg hc]
  by_cases hch : env.chmodOk = true
  case neg =>
    refine Or.inr (Or.inr (Or.inl ⟨Bool.not_eq_true _ ▸ hch, ?_⟩))
    rw [archive, if_pos hd, if_pos hc]
    try dsimp only
    rw [if_neg hch]
  by_cases hw : env.archiveWriteOk = true
  case neg =>
    refine Or.inr (Or.inr (Or.inr (Or.inl ⟨Bool.not_eq_true _ ▸ hw, ?_⟩)))
    rw [archive, if_pos hd, if_pos hc]
    try dsimp only
    rw [if_pos hch]
    try dsimp only
    rw [if_neg hw]
  exact Or.inr (Or.inr (Or.inr (Or.inr (archive_success_eq env fs hd hc hch hw))))

theorem exportBody_fetch_error (env : ExportEnv) (tmp : String) (fs : FS) (e : String)
    (hf : env.fetchResult = .error e) :
    exportBody env tmp fs = (.error ("cannot fetch CRDs: " ++ e), fs, []) := by
  rw [exportBody, hf]

theorem exportBody_loop_error (env : ExportEnv) (tmp : String) (fs : FS)
    (crdList : List CustomResourceDefinition) (e : String)
    (counts : List (String × Nat)) (fsL : FS) (trL : List Event)
    (hf : env.fetchResult = .ok crdList)
    (hl : exportLoop env tmp (crdList.filter shouldExport) [] fs =
      (.error e, counts, fsL, trL)) :
    exportBody env tmp fs = (.error e, fsL, trL) := by
  rw [exportBody, hf]
  try dsimp only
  rw [hl]

theorem exportBody_metadata_fail (env : ExportEnv) (tmp : String) (fs : FS)
    (crdList : List CustomResourceDefinition)
    (counts : List (String × Nat)) (fsL : FS) (trL : List Event)
    (hf : env.fetchResult = .ok crdList)
    (hl : exportLoop env tmp (crdList.filter shouldExport) [] fs =
      (.ok (), counts, fsL, trL))
    (hm : env.metadataOk = false) :
    exportBody env tmp fs = (.error "cannot write export metadata", fsL, trL) := by
  rw [exportBody, hf]
  try dsimp only
  rw [hl]
  try dsimp only
  rw [if_neg (by rw [hm]; exact Bool.false_ne_true)]

theorem exportBody_archive_error (env : ExportEnv) (tmp : String) (fs : FS)
    (crdList : List CustomResourceDefinition)
    (counts : List (String × Nat)) (fsL : FS) (trL : List Event)
    (e : String) (fsA : FS) (trA : List Event)
    (hf : env.fetchResult = .ok crdList)
    (hl : exportLoop env tmp (crdList.filter shouldExport) [] fs =
      (.ok (), counts, fsL, trL))
    (hm : env.metadataOk = true)
    (ha : archive env (addFile (summaryPath tmp) 0o600 fsL) = (.error e, fsA, trA)) :
    exportBody env tmp fs =
      (.error ("cannot archive exported state: " ++ e), fsA,
       trL ++ Event.summary counts :: trA) := by
  rw [exportBody, hf]
  try dsimp only
  rw [hl]
  try dsimp only
  rw [if_pos hm, ha]

theorem runExport_body_eq (env : ExportEnv) (fs0 : FS) (htd : env.tempDirOk = true) :
    runExport env fs0 =
      ((exportBody env env.tmpDir (mkDir [env.tmpDir] fs0)).1,
       removeAll [env.tmpDir] (exportBody env env.tmpDir (mkDir [env.tmpDir] fs0)).2.1,
       (exportBody env env.tmpDir (mkDir [env.tmpDir] fs0)).2.2) := by
  rw [runExport, if_pos htd]

theorem runExport_path_cases (env : ExportEnv) (fs0 : FS) :
    (env.tempDirOk = false ∧
      runExport env fs0 = (.error "cannot create temporary directory", fs0, [])) ∨
    (∃ e, env.fetchResult = .error e ∧
      runExport env fs0 = (.error ("cannot fetch CRDs: " ++ e),
        removeAll [env.tmpDir] (mkDir [env.tmpDir] fs0), [])) ∨
    (∃ crdList e counts fsL trL, env.fetchResult = .ok crdList ∧
      exportLoop env env.tmpDir (crdList.filter shouldExport) []
          (mkDir [env.tmpDir] fs0) = (.error e, counts, fsL, trL) ∧
      runExport env fs0 = (.error e, removeAll [env.tmpDir] fsL, trL)) ∨
    (∃ crdList counts fsL trL, env.metadataOk = false ∧ env.fetchResult = .ok crdList ∧
      exportLoop env env.tmpDir (crdList.filter shouldExport) []
          (mkDir [env.tmpDir] fs0) = (.ok (), counts, fsL, trL) ∧
      runExport env fs0 = (.error "cannot write export metadata",
        removeAll [env.tmpDir] fsL, trL)) ∨
    (∃ crdList counts fsL trL e fsA trA, env.fetchResult = .ok crdList ∧
      exportLoop env env.tmpDir (crdList.filter shouldExport) []
          (mkDir [env.tmpDir] fs0) = (.ok (), counts, fsL, trL) ∧
      env.metadataOk = true ∧
      archive env (addFile (summaryPath env.tmpDir) 0o600 fsL) = (.error e, fsA, trA) ∧
      runExport env fs0 = (.error ("cannot archive exported state: " ++ e),
        removeAll [env.tmpDir] fsA, trL ++ Event.summary counts :: trA)) ∨
    (∃ crdList counts fsL trL, env.fetchResult = .ok crdList ∧
      exportLoop env env.tmpDir (crdList.filter shouldExport) []
          (mkDir [env.tmpDir] fs0) = (.ok (), counts, fsL, trL) ∧
      runExport env fs0 =
        (.ok (),
         removeAll [env.tmpDir]
           (completeFile env.outputArchive (chmodFile env.outputArchive 0o600
             (createFile env.outputArchive (addFile (summaryPath env.tmpDir) 0o600 fsL)))),
         trL ++ Event.summary counts :: [.archCreate, .archChmod, .archWrite])) := by
  by_cases htd : env.tempDirOk = true
  case neg =>
    refine Or.inl ⟨Bool.not_eq_true _ ▸ htd, ?_⟩
    rw [runExport, if_neg htd]
  rcases hf : env.fetchResult with e | crdList
  · refine Or.inr (Or.inl ⟨e, rfl, ?_⟩)
    rw [runExport_body_eq env fs0 htd, exportBody_fetch_error env env.tmpDir _ e hf]
  rcases hl : exportLoop env env.tmpDir (crdList.filter shouldExport) []
      (mkDir [env.tmpDir] fs0) with ⟨r, counts, fsL, trL⟩
  cases r with
  | error e =>
    refine Or.inr (Or.inr (Or.inl ⟨crdList, e, counts, fsL, trL, rfl, hl, ?_⟩))
    rw [runExport_body_eq env fs0 htd,
      exportBody_loop_error env env.tmpDir _ crdList e counts fsL trL hf hl]
  | ok u =>
    cases u
    by_cases hm : env.metadataOk = true
    case neg =>
      refine Or.inr (Or.inr (Or.inr (Or.inl
        ⟨crdList, counts, fsL, trL, Bool.not_eq_true _ ▸ hm, rfl, hl, ?_⟩)))
      rw [runExport_body_eq env fs0 htd,
        exportBody_metadata_fail env env.tmpDir _ crdList counts fsL trL hf hl
          (Bool.not_eq_true _ ▸ hm)]
    rcases ha : archive env (addFile (summaryPath env.tmpDir) 0o600 fsL) with ⟨ra, fsA, trA⟩
    cases ra with
    | error e =>
      refine Or.inr (Or.inr (Or.inr (Or.inr (Or.inl
        ⟨crdList, counts, fsL, trL, e, fsA, trA, rfl, hl, hm, ha, ?_⟩))))
      rw [runExport_body_eq env fs0 htd,
        exportBody_archive_error env env.tmpDir _ crdList counts fsL trL e fsA trA
          hf hl hm ha]
    | ok ua =>
      cases ua
      rcases archive_path_cases env (addFile (summaryPath env.tmpDir) 0o600 fsL) with
        ⟨_, ha2⟩ | ⟨_, ha2⟩ | ⟨_, ha2⟩ | ⟨_, ha2⟩ | ha2 <;>
        rw [ha2] at ha
      · exact absurd (congrArg Prod.fst ha) (by simp)
      · exact absurd (congrArg Prod.fst ha) (by simp)
      · exact absurd (congrArg Prod.fst ha) (by simp)
      · exact absurd (congrArg Prod.fst ha) (by simp)
      · refine Or.inr (Or.inr (Or.inr (Or.inr (Or.inr
          ⟨crdList, counts, fsL, trL, rfl, hl, ?_⟩))))
        have hfa : fsA = completeFile env.outputArchive (chmodFile env.outputArchive 0o600
            (createFile env.outputArchive (addFile (summaryPath env.tmpDir) 0o600 fsL))) := by
          have := congrArg (fun t => t.2.1) ha
          exact this.symm
        have htra : trA = [.archCreate, .archChmod, .archWrite] := by
          have := congrArg (fun t => t.2.2) ha
          exact this.symm
        rw [runExport_body_eq env fs0 htd]
        rw [exportBody, hf]
        try dsimp only
        rw [hl]
        try dsimp only
        rw [if_pos hm, ha2]

theorem singleton_isPrefixOf_head (a : String) (l : List String) :
    ([a] : List String).isPrefixOf l = true ↔ l.head? = some a := by
  cases l with
  | nil => simp [List.isPrefixOf]
  | cons b m =>
    simp [List.isPrefixOf]
    exact eq_comm

theorem chmodFile_path (p : Path) (perm : Nat) (f : FSFile) :
    ((fun f => if f.path = p then { f with perm := perm } else f) f).path = f.path := by
  by_cases h : f.path = p <;> simp [h]

theorem completeFile_path (p : Path) (f : FSFile) :
    ((fun f => if f.path = p then { f with complete := true } else f) f).path = f.path := by
  by_cases h : f.path = p <;> simp [h]

theorem removeAll_keep_mem (d : Path) (fs : FS) (f : FSFile)
    (hf : f ∈ fs.files) (hkeep : d.isPrefixOf f.path = false) :
    f ∈ (removeAll d fs).files := by
  refine List.mem_filter.mpr ⟨hf, ?_⟩
  rw [hkeep]
  rfl

theorem removeAll_files_sub (d : Path) (fs : FS) (f : FSFile)
    (hf : f ∈ (removeAll d fs).files) : f ∈ fs.files :=
  (List.mem_filter.mp hf).1

theorem addFile_files (p : Path) (perm : Nat) (fs : FS) :
    (addFile p perm fs).files = fs.files ++ [{ path := p, perm := perm, complete := true }] := rfl

theorem createFile_files (p : Path) (fs : FS) :
    (createFile p fs).files = fs.files ++ [{ path := p, perm := 0o666, complete := false }] := rfl

/-- Every file of the staging state after a successful loop either was
present initially or lives under the staging root. -/
theorem staged_file_not_out (env : ExportEnv) (fs0 : FS) (fsL : FS)
    (crds : List CustomResourceDefinition) (counts : List (String × Nat))
    (trL : List Event)
    (hl : exportLoop env env.tmpDir crds [] (mkDir [env.tmpDir] fs0) =
      (.ok (), counts, fsL, trL))
    (hfresh : ∀ f ∈ fs0.files, f.path ≠ env.outputArchive)
    (houtTmp : ([env.tmpDir] : Path).isPrefixOf env.outputArchive = false) :
    ∀ f ∈ fsL.files, f.path ≠ env.outputArchive := by
  intro f hf
  have := exportLoop_files env env.tmpDir crds [] (mkDir [env.tmpDir] fs0) f
    (by rw [hl]; exact hf)
  rcases this with h1 | h2
  · exact hfresh f h1
  · intro hout
    rw [hout] at h2
    rw [(singleton_isPrefixOf_head env.tmpDir env.outputArchive).mpr h2] at houtTmp
    exact absurd houtTmp (by simp)

theorem summary_file_not_out (env : ExportEnv)
    (houtTmp : ([env.tmpDir] : Path).isPrefixOf env.outputArchive = false) :
    summaryPath env.tmpDir ≠ env.outputArchive := by
  intro hout
  have : ([env.tmpDir] : Path).isPrefixOf (summaryPath env.tmpDir) = true := by
    rw [singleton_isPrefixOf_head]
    rfl
  rw [hout, houtTmp] at this
  exact absurd this (by simp)

theorem runExport_success_out_file (env : ExportEnv) (fs0 : FS)
    (hok : (runExport env fs0).1 = .ok ())
    (hfresh : ∀ f ∈ fs0.files, f.path ≠ env.outputArchive)
    (houtTmp : ([env.tmpDir] : Path).isPrefixOf env.outputArchive = false) :
    (runExport env fs0).2.1.files.filter (fun f => f.path == env.outputArchive) =
      [{ path := env.outputArchive, perm := 0o600, complete := true }] := by
  obtain ⟨htd, hm, hd, hc, hch, hw, crdList, counts, fsL, trL, hf, hl⟩ :=
    runExport_ok_inv env fs0 hok
  rw [runExport_success_eq env fs0 crdList counts fsL trL htd hf hl hm hd hc hch hw]
  have hbase : ∀ f ∈ (addFile (summaryPath env.tmpDir) 0o600 fsL).files,
      f.path ≠ env.outputArchive := by
    intro f hfm
    rw [addFile_files] at hfm
    rcases List.mem_append.mp hfm with h1 | h2
    · exact staged_file_not_out env fs0 fsL (crdList.filter shouldExport) counts trL hl
        hfresh houtTmp f h1
    · rw [List.mem_singleton.mp h2]
      exact summary_file_not_out env houtTmp
  generalize hB : (addFile (summaryPath env.tmpDir) 0o600 fsL) = base at hbase ⊢
  show ((removeAll [env.tmpDir] (completeFile env.outputArchive
      (chmodFile env.outputArchive 0o600 (createFile env.outputArchive base)))).files.filter
        (fun f => f.path == env.outputArchive)) = _
  have hfiles : (completeFile env.outputArchive (chmodFile env.outputArchive 0o600
      (createFile env.outputArchive base))).files =
      ((base.files.map (fun f => if f.path = env.outputArchive then { f with perm := 0o600 } else f)).map
        (fun f => if f.path = env.outputArchive then { f with complete := true } else f)) ++
        [{ path := env.outputArchive, perm := 0o600, complete := true }] := by
    rw [completeFile, chmodFile, createFile_files]
    dsimp only
    rw [List.map_append, List.map_append]
    congr 1
    simp
  rw [removeAll]
  dsimp only
  rw [hfiles, List.filter_append, List.filter_append]
  have hkeep : (!(([env.tmpDir] : Path).isPrefixOf
      ({ path := env.outputArchive, perm := 0o600, complete := true } : FSFile).path)) = true := by
    dsimp only
    rw [houtTmp]
    rfl
  have hmapped : ∀ f ∈ List.map
      (fun f => if f.path = env.outputArchive then { f with complete := true } else f)
      (List.map (fun f => if f.path = env.outputArchive then { f with perm := 0o600 } else f)
        base.files),
      f.path ≠ env.outputArchive := by
    intro f hfm
    obtain ⟨f1, hf1, hf1e⟩ := List.mem_map.mp hfm
    obtain ⟨f0, hf0, hf0e⟩ := List.mem_map.mp hf1
    rw [← hf1e, completeFile_path, ← hf0e, chmodFile_path]
    exact hbase f0 hf0
  have hleft : List.filter (fun f => f.path == env.outputArchive)
      (List.filter (fun f => !(List.isPrefixOf [env.tmpDir] f.path))
        (List.map (fun f => if f.path = env.outputArchive then { f with complete := true } else f)
          (List.map (fun f => if f.path = env.outputArchive then { f with perm := 0o600 } else f)
            base.files))) = [] := by
    rw [List.filter_eq_nil_iff]
    intro f hfm
    have hf2 := List.mem_filter.mp hfm
    have := hmapped f hf2.1
    simp [this]
  rw [hleft, List.filter_singleton, hkeep, cond_true, List.filter_singleton]
  have hpeq : (({ path := env.outputArchive, perm := 0o600, complete := true } : FSFile).path ==
      env.outputArchive) = true := by
    dsimp only
    exact beq_self_eq_true _
  rw [hpeq, cond_true, List.nil_append]

theorem loop_trace_filter_summary (l : List Event)
    (h : ∀ e ∈ l, isLoopEvent e = true) : l.filter isSummaryEvent = [] := by
  rw [List.filter_eq_nil_iff]
  intro e he
  rw [isLoopEvent_not_summary (h e he)]
  simp

theorem loop_trace_no_archCreate (l : List Event)
    (h : ∀ e ∈ l, isLoopEvent e = true) : Event.archCreate ∉ l := by
  intro hmem
  have := h _ hmem
  exact absurd this (by simp [isLoopEvent])

/-- Claim C7: the summary is written exactly once, strictly after every persist
of the per-type loop and before any archive step; when the metadata write
fails the run returns an error with the archiver never invoked (only loop
events in the trace); and whenever any archive event occurs at all, a
summary event occurs in the trace before it. -/
theorem export_summary_once (env : ExportEnv) (fs0 : FS) :
    (env.metadataOk = false →
      (∃ e, (runExport env fs0).1 = .error e) ∧
        ∀ ev ∈ (runExport env fs0).2.2, isLoopEvent ev = true) ∧
    ((runExport env fs0).1 = .ok () →
      ∃ trL counts, (runExport env fs0).2.2 =
          trL ++ Event.summary counts :: [.archCreate, .archChmod, .archWrite] ∧
        (∀ ev ∈ trL, isLoopEvent ev = true) ∧
        (runExport env fs0).2.2.filter isSummaryEvent = [Event.summary counts]) ∧
    ((∃ ev ∈ (runExport env fs0).2.2, isArchiveEvent ev = true) →
      ∃ trPre counts trPost, (runExport env fs0).2.2 =
        trPre ++ Event.summary counts :: trPost ∧ ∀ ev ∈ trPre, isLoopEvent ev = true) := by
  refine ⟨?_, ?_, ?_⟩
  · intro hm
    rcases runExport_path_cases env fs0 with
      ⟨_, hr⟩ | ⟨e, _, hr⟩ | ⟨cl, e, c, fsL, trL, hf, hl, hr⟩ |
      ⟨cl, c, fsL, trL, _, hf, hl, hr⟩ | ⟨cl, c, fsL, trL, e, fsA, trA, hf, hl, hm2, ha, hr⟩ |
      ⟨cl, c, fsL, trL, hf, hl, hr⟩
    · rw [hr]
      exact ⟨⟨_, rfl⟩, by intro ev hev; exact absurd hev (List.not_mem_nil ev)⟩
    · rw [hr]
      exact ⟨⟨_, rfl⟩, by intro ev hev; exact absurd hev (List.not_mem_nil ev)⟩
    · rw [hr]
      refine ⟨⟨e, rfl⟩, ?_⟩
      intro ev hev
      exact exportLoop_events env env.tmpDir _ _ _ ev (by rw [hl]; exact hev)
    · rw [hr]
      refine ⟨⟨_, rfl⟩, ?_⟩
      intro ev hev
      exact exportLoop_events env env.tmpDir _ _ _ ev (by rw [hl]; exact hev)
    · rw [hm] at hm2
      exact absurd hm2 (by simp)
    · have := runExport_ok_inv env fs0 (by rw [hr])
      rw [hm] at this
      exact absurd this.2.1 (by simp)
  · intro hok
    obtain ⟨htd, hm, hd, hc, hch, hw, crdList, counts, fsL, trL, hf, hl⟩ :=
      runExport_ok_inv env fs0 hok
    rw [runExport_success_eq env fs0 crdList counts fsL trL htd hf hl hm hd hc hch hw]
    have hloopev : ∀ ev ∈ trL, isLoopEvent ev = true := by
      intro ev hev
      exact exportLoop_events env env.tmpDir _ _ _ ev (by rw [hl]; exact hev)
    refine ⟨trL, counts, rfl, hloopev, ?_⟩
    rw [List.filter_append, loop_trace_filter_summary trL hloopev, List.nil_append]
    rfl
  · intro ⟨ev, hev, hevarch⟩
    rcases runExport_path_cases env fs0 with
      ⟨_, hr⟩ | ⟨e, _, hr⟩ | ⟨cl, e, c, fsL, trL, hf, hl, hr⟩ |
      ⟨cl, c, fsL, trL, _, hf, hl, hr⟩ | ⟨cl, c, fsL, trL, e, fsA, trA, hf, hl, hm2, ha, hr⟩ |
      ⟨cl, c, fsL, trL, hf, hl, hr⟩
    · rw [hr] at hev
      exact absurd hev (List.not_mem_nil ev)
    · rw [hr] at hev
      exact absurd hev (List.not_mem_nil ev)
    · rw [hr] at hev
      have := exportLoop_events env env.tmpDir _ _ _ ev (by rw [hl]; exact hev)
      rw [isLoopEvent_not_archive this] at hevarch
      exact absurd hevarch (by simp)
    · rw [hr] at hev
      have := exportLoop_events env env.tmpDir _ _ _ ev (by rw [hl]; exact hev)
      rw [isLoopEvent_not_archive this] at hevarch
      exact absurd hevarch (by simp)
    · rw [hr]
      refine ⟨trL, c, trA, rfl, ?_⟩
      intro e2 he2
      exact exportLoop_events env env.tmpDir _ _ _ e2 (by rw [hl]; exact he2)
    · rw [hr]
      refine ⟨trL, c, [.archCreate, .archChmod, .archWrite], rfl, ?_⟩
      intro e2 he2
      exact exportLoop_events env env.tmpDir _ _ _ e2 (by rw [hl]; exact he2)

/-- Claim C7 witness: at the concrete environment with a failing metadata write
the run errors with a loop-only trace, and at the concrete successful
environment the trace carries exactly one summary, after the loop events
and before the three archive events. -/
theorem export_summary_once_witness :
    ((∃ e, (runExport envMetadataFails emptyFS).1 = .error e) ∧
      ∀ ev ∈ (runExport envMetadataFails emptyFS).2.2, isLoopEvent ev = true) ∧
    (∃ trL counts, (runExport happyEnv emptyFS).2.2 =
        trL ++ Event.summary counts :: [.archCreate, .archChmod, .archWrite] ∧
      (∀ ev ∈ trL, isLoopEvent ev = true) ∧
      (runExport happyEnv emptyFS).2.2.filter isSummaryEvent = [Event.summary counts]) :=
  ⟨(export_summary_once envMetadataFails emptyFS).1 rfl,
   (export_summary_once happyEnv emptyFS).2.1 (by rfl)⟩

/-- Claim C4: a fetched in-scope CRD with zero storage-flagged versions makes
resolution fail with an error wrapped around the CRD name (the mapper is
queried at the empty version, which it does not serve), the whole run
aborts with an error, the archiver never runs, and no file at the output
path is produced. -/
theorem export_no_storage_aborts (env : ExportEnv) (fs0 : FS)
    (crdList : List CustomResourceDefinition) (crd : CustomResourceDefinition)
    (m : String)
    (hfetch : env.fetchResult = .ok crdList)
    (hmem : crd ∈ crdList) (hscope : shouldExport crd = true)
    (hnostorage : crd.spec.versions.filter (fun vr => vr.storage) = [])
    (hmapper : env.restMapping ⟨crd.spec.group, crd.spec.names.kind⟩ "" = .error m)
    (hfresh : ∀ f ∈ fs0.files, f.path ≠ env.outputArchive)
    (houtTmp : ([env.tmpDir] : Path).isPrefixOf env.outputArchive = false) :
    customResourceGVR env.restMapping crd =
        .error ("cannot get REST mapping for \"" ++ crd.name ++ "\": " ++ m) ∧
      (∃ e, (runExport env fs0).1 = .error e) ∧
      (∀ ev ∈ (runExport env fs0).2.2, isArchiveEvent ev = false) ∧
      (∀ f ∈ (runExport env fs0).2.1.files, f.path ≠ env.outputArchive) := by
  have hres : customResourceGVR env.restMapping crd =
      .error ("cannot get REST mapping for \"" ++ crd.name ++ "\": " ++ m) := by
    show resolveMapping env.restMapping crd (storageVersionName crd.spec.versions) = _
    rw [storageVersionName_eq, hnostorage]
    show resolveMapping env.restMapping crd "" = _
    rw [resolveMapping, hmapper]
  refine ⟨hres, ?_⟩
  rcases runExport_path_cases env fs0 with
    ⟨_, hr⟩ | ⟨e, hfe, hr⟩ | ⟨cl, e, c, fsL, trL, hf, hl, hr⟩ |
    ⟨cl, c, fsL, trL, _, hf, hl, hr⟩ | ⟨cl, c, fsL, trL, e, fsA, trA, hf, hl, hm2, ha, hr⟩ |
    ⟨cl, c, fsL, trL, hf, hl, hr⟩
  · rw [hr]
    exact ⟨⟨_, rfl⟩, by intro ev hev; exact absurd hev (List.not_mem_nil ev),
      by intro f hf2; exact hfresh f hf2⟩
  · rw [hfetch] at hfe
    exact absurd hfe (by simp)
  · rw [hr]
    refine ⟨⟨e, rfl⟩, ?_, ?_⟩
    · intro ev hev
      exact isLoopEvent_not_archive
        (exportLoop_events env env.tmpDir _ _ _ ev (by rw [hl]; exact hev))
    · intro f hf2
      have hf3 := removeAll_files_sub _ _ _ hf2
      have := exportLoop_files env env.tmpDir _ _ _ f (by rw [hl]; exact hf3)
      rcases this with h1 | h2
      · exact hfresh f h1
      · intro hout
        rw [hout] at h2
        rw [(singleton_isPrefixOf_head env.tmpDir env.outputArchive).mpr h2] at houtTmp
        exact absurd houtTmp (by simp)
  · exfalso
    have hmem2 : crd ∈ cl := by
      have hcl : cl = crdList := by
        rw [hfetch] at hf
        exact (Except.ok.inj hf).symm
      rw [hcl]
      exact hmem
    obtain ⟨e2, he2⟩ := exportLoop_error_of_mem env env.tmpDir crd
      ("cannot get REST mapping for \"" ++ crd.name ++ "\": " ++ m) hres
      (cl.filter shouldExport) [] (mkDir [env.tmpDir] fs0)
      (List.mem_filter.mpr ⟨hmem2, hscope⟩)
    rw [hl] at he2
    exact absurd he2 (by simp)
  · exfalso
    have hmem2 : crd ∈ cl := by
      have hcl : cl = crdList := by
        rw [hfetch] at hf
        exact (Except.ok.inj hf).symm
      rw [hcl]
      exact hmem
    obtain ⟨e2, he2⟩ := exportLoop_error_of_mem env env.tmpDir crd
      ("cannot get REST mapping for \"" ++ crd.name ++ "\": " ++ m) hres
      (cl.filter shouldExport) [] (mkDir [env.tmpDir] fs0)
      (List.mem_filter.mpr ⟨hmem2, hscope⟩)
    rw [hl] at he2
    exact absurd he2 (by simp)
  · exfalso
    have hmem2 : crd ∈ cl := by
      have hcl : cl = crdList := by
        rw [hfetch] at hf
        exact (Except.ok.inj hf).symm
      rw [hcl]
      exact hmem
    obtain ⟨e2, he2⟩ := exportLoop_error_of_mem env env.tmpDir crd
      ("cannot get REST mapping for \"" ++ crd.name ++ "\": " ++ m) hres
      (cl.filter shouldExport) [] (mkDir [env.tmpDir] fs0)
      (List.mem_filter.mpr ⟨hmem2, hscope⟩)
    rw [hl] at he2
    exact absurd he2 (by simp)

/-- Claim C4 witness: the no-storage theorem applied to the concrete environment
fetching only `crdNoStorage`, whose mapper serves no empty version. -/
theorem export_no_storage_aborts_witness :
    customResourceGVR envNoStorage.restMapping crdNoStorage =
        .error ("cannot get REST mapping for \"" ++ crdNoStorage.name ++ "\": " ++
          "no matches for kind") ∧
      (∃ e, (runExport envNoStorage emptyFS).1 = .error e) ∧
      (∀ ev ∈ (runExport envNoStorage emptyFS).2.2, isArchiveEvent ev = false) ∧
      (∀ f ∈ (runExport envNoStorage emptyFS).2.1.files,
        f.path ≠ envNoStorage.outputArchive) :=
  export_no_storage_aborts envNoStorage emptyFS [crdNoStorage] crdNoStorage
    "no matches for kind" rfl (List.mem_singleton.mpr rfl) (by decide) (by decide)
    rfl (by intro f hf2; exact absurd hf2 (List.not_mem_nil f)) (by decide)

theorem loop_files_no_out (env : ExportEnv) (fs0 fsL : FS)
    (crds : List CustomResourceDefinition) (counts : List (String × Nat))
    (r : Except String Unit) (trL : List Event)
    (hl : exportLoop env env.tmpDir crds [] (mkDir [env.tmpDir] fs0) =
      (r, counts, fsL, trL))
    (hfresh : ∀ f ∈ fs0.files, f.path ≠ env.outputArchive)
    (houtTmp : ([env.tmpDir] : Path).isPrefixOf env.outputArchive = false) :
    ∀ f ∈ fsL.files, f.path ≠ env.outputArchive := by
  intro f hf
  have := exportLoop_files env env.tmpDir crds [] (mkDir [env.tmpDir] fs0) f
    (by rw [hl]; exact hf)
  rcases this with h1 | h2
  · exact hfresh f h1
  · intro hout
    rw [hout] at h2
    rw [(singleton_isPrefixOf_head env.tmpDir env.outputArchive).mpr h2] at houtTmp
    exact absurd houtTmp (by simp)

/-- Claim C6 counterexample: with every step succeeding except the final archive
content write, `Export` returns an error yet a file is left behind at the
output path — created, chmodded and partially written (`complete := false`)
— contradicting the claim that no output file is left behind on error. -/
theorem export_error_leaves_file_counterexample :
    (runExport envArchiveWriteFails emptyFS).1 =
        .error "cannot archive exported state: archive write failed" ∧
      (runExport envArchiveWriteFails emptyFS).2.1.files.filter
          (fun f => f.path == envArchiveWriteFails.outputArchive) =
        [{ path := ["backup.tar.gz"], perm := 0o600, complete := false }] :=
  ⟨rfl, rfl⟩

/-- Claim C6 amended: on success exactly one complete archive file with owner-only
permission exists at the output path; as long as the archiver never created
the output file, no file at the output path exists; but once the create
step has happened (`archCreate` in the trace), a file remains at the output
path even when a later permission-setting or write step fails and `Export`
returns an error. -/
theorem export_archive_file (env : ExportEnv) (fs0 : FS)
    (hfresh : ∀ f ∈ fs0.files, f.path ≠ env.outputArchive)
    (houtTmp : ([env.tmpDir] : Path).isPrefixOf env.outputArchive = false) :
    ((runExport env fs0).1 = .ok () →
      (runExport env fs0).2.1.files.filter (fun f => f.path == env.outputArchive) =
        [{ path := env.outputArchive, perm := 0o600, complete := true }]) ∧
    (Event.archCreate ∉ (runExport env fs0).2.2 →
      ∀ f ∈ (runExport env fs0).2.1.files, f.path ≠ env.outputArchive) ∧
    (Event.archCreate ∈ (runExport env fs0).2.2 →
      ∃ f ∈ (runExport env fs0).2.1.files, f.path = env.outputArchive) := by
  refine ⟨fun hok => runExport_success_out_file env fs0 hok hfresh houtTmp, ?_, ?_⟩
  · intro hnc
    rcases runExport_path_cases env fs0 with
      ⟨_, hr⟩ | ⟨e, hfe, hr⟩ | ⟨cl, e, c, fsL, trL, hf, hl, hr⟩ |
      ⟨cl, c, fsL, trL, _, hf, hl, hr⟩ | ⟨cl, c, fsL, trL, e, fsA, trA, hf, hl, hm2, ha, hr⟩ |
      ⟨cl, c, fsL, trL, hf, hl, hr⟩
    · rw [hr]
      exact hfresh
    · rw [hr]
      intro f hf2
      exact hfresh f (removeAll_files_sub _ _ _ hf2)
    · rw [hr]
      intro f hf2
      exact loop_files_no_out env fs0 fsL _ c _ trL hl hfresh houtTmp f
        (removeAll_files_sub _ _ _ hf2)
    · rw [hr]
      intro f hf2
      exact loop_files_no_out env fs0 fsL _ c _ trL hl hfresh houtTmp f
        (removeAll_files_sub _ _ _ hf2)
    · rcases archive_path_cases env (addFile (summaryPath env.tmpDir) 0o600 fsL) with
        ⟨hda, ha2⟩ | ⟨hca, ha2⟩ | ⟨hcha, ha2⟩ | ⟨hwa, ha2⟩ | ha2 <;> rw [ha2] at ha <;>
        simp only [Prod.mk.injEq] at ha
      · obtain ⟨-, hfa, htra⟩ := ha
        rw [hr]
        intro f hf2
        have hf3 := removeAll_files_sub _ _ _ hf2
        rw [← hfa, addFile_files] at hf3
        rcases List.mem_append.mp hf3 with h1 | h2
        · exact loop_files_no_out env fs0 fsL _ c _ trL hl hfresh houtTmp f h1
        · rw [List.mem_singleton.mp h2]
          exact summary_file_not_out env houtTmp
      · obtain ⟨-, hfa, htra⟩ := ha
        rw [hr]
        intro f hf2
        have hf3 := removeAll_files_sub _ _ _ hf2
        rw [← hfa, addFile_files] at hf3
        rcases List.mem_append.mp hf3 with h1 | h2
        · exact loop_files_no_out env fs0 fsL _ c _ trL hl hfresh houtTmp f h1
        · rw [List.mem_singleton.mp h2]
          exact summary_file_not_out env houtTmp
      · exfalso
        obtain ⟨-, hfa, htra⟩ := ha
        apply hnc
        rw [hr]
        refine List.mem_append.mpr (Or.inr ?_)
        rw [← htra]
        exact List.mem_cons_of_mem _ (List.mem_singleton.mpr rfl)
      · exfalso
        obtain ⟨-, hfa, htra⟩ := ha
        apply hnc
        rw [hr]
        refine List.mem_append.mpr (Or.inr ?_)
        rw [← htra]
        exact List.mem_cons_of_mem _ (List.mem_cons_self _ _)
      · exact absurd ha (by simp)
    · exfalso
      apply hnc
      rw [hr]
      exact List.mem_append.mpr (Or.inr (List.mem_cons_of_mem _ (List.mem_cons_self _ _)))
  · intro hc
    rcases runExport_path_cases env fs0 with
      ⟨_, hr⟩ | ⟨e, hfe, hr⟩ | ⟨cl, e, c, fsL, trL, hf, hl, hr⟩ |
      ⟨cl, c, fsL, trL, _, hf, hl, hr⟩ | ⟨cl, c, fsL, trL, e, fsA, trA, hf, hl, hm2, ha, hr⟩ |
      ⟨cl, c, fsL, trL, hf, hl, hr⟩
    · rw [hr] at hc
      exact absurd hc (List.not_mem_nil _)
    · rw [hr] at hc
      exact absurd hc (List.not_mem_nil _)
    · rw [hr] at hc
      exact absurd hc (loop_trace_no_archCreate trL
        (fun ev hev => exportLoop_events env env.tmpDir _ _ _ ev (by rw [hl]; exact hev)))
    · rw [hr] at hc
      exact absurd hc (loop_trace_no_archCreate trL
        (fun ev hev => exportLoop_events env env.tmpDir _ _ _ ev (by rw [hl]; exact hev)))
    · rcases archive_path_cases env (addFile (summaryPath env.tmpDir) 0o600 fsL) with
        ⟨hda, ha2⟩ | ⟨hca, ha2⟩ | ⟨hcha, ha2⟩ | ⟨hwa, ha2⟩ | ha2 <;> rw [ha2] at ha <;>
        simp only [Prod.mk.injEq] at ha
      · exfalso
        obtain ⟨-, hfa, htra⟩ := ha
        rw [hr, ← htra] at hc
        rcases List.mem_append.mp hc with h1 | h2
        · exact loop_trace_no_archCreate trL
            (fun ev hev => exportLoop_events env env.tmpDir _ _ _ ev (by rw [hl]; exact hev)) h1
        · rcases List.mem_cons.mp h2 with h3 | h4
          · exact absurd h3 (by simp)
          · exact absurd h4 (List.not_mem_nil _)
      · exfalso
        obtain ⟨-, hfa, htra⟩ := ha
        rw [hr, ← htra] at hc
        rcases List.mem_append.mp hc with h1 | h2
        · exact loop_trace_no_archCreate trL
            (fun ev hev => exportLoop_events env env.tmpDir _ _ _ ev (by rw [hl]; exact hev)) h1
        · rcases List.mem_cons.mp h2 with h3 | h4
          · exact absurd h3 (by simp)
          · exact absurd h4 (List.not_mem_nil _)
      · obtain ⟨-, hfa, htra⟩ := ha
        rw [hr]
        refine ⟨{ path := env.outputArchive, perm := 0o666, complete := false }, ?_, rfl⟩
        apply removeAll_keep_mem _ _ _ _ houtTmp
        rw [← hfa, createFile_files]
        exact List.mem_append.mpr (Or.inr (List.mem_singleton.mpr rfl))
      · obtain ⟨-, hfa, htra⟩ := ha
        rw [hr]
        refine ⟨{ path := env.outputArchive, perm := 0o600, complete := false }, ?_, rfl⟩
        apply removeAll_keep_mem _ _ _ _ houtTmp
        rw [← hfa, chmodFile, createFile_files]
        dsimp only
        rw [List.map_append]
        refine List.mem_append.mpr (Or.inr ?_)
        simp
      · exact absurd ha (by simp)
    · rw [hr]
      refine ⟨{ path := env.outputArchive, perm := 0o600, complete := true }, ?_, rfl⟩
      apply removeAll_keep_mem _ _ _ _ houtTmp
      rw [completeFile, chmodFile, createFile_files]
      dsimp only
      rw [List.map_append, List.map_append]
      refine List.mem_append.mpr (Or.inr ?_)
      simp

/-- Claim C6 witness for the amended claim: the archive-file theorem applied to
the concrete successful environment, with all hypotheses discharged; the
success branch gives exactly one complete 0600 archive file. -/
theorem export_archive_file_witness :
    (runExport happyEnv emptyFS).2.1.files.filter
        (fun f => f.path == happyEnv.outputArchive) =
      [{ path := happyEnv.outputArchive, perm := 0o600, complete := true }] :=
  (export_archive_file happyEnv emptyFS
    (by intro f hf2; exact absurd hf2 (List.not_mem_nil f)) (by decide)).1 rfl

/-- Claim C9: on a successful run, the archive file at the output path carries
permission bits 0600 (owner read/write only) — every file at that path
does — and the trace shows the permission-setting step immediately after
the creation step and before the content-write step, so the archive is
never readable by others while its content is being written. -/
theorem export_archive_permission (env : ExportEnv) (fs0 : FS)
    (hfresh : ∀ f ∈ fs0.files, f.path ≠ env.outputArchive)
    (houtTmp : ([env.tmpDir] : Path).isPrefixOf env.outputArchive = false)
    (hok : (runExport env fs0).1 = .ok ()) :
    (∃ f ∈ (runExport env fs0).2.1.files,
        f.path = env.outputArchive ∧ f.perm = 0o600) ∧
      (∀ f ∈ (runExport env fs0).2.1.files,
        f.path = env.outputArchive → f.perm = 0o600) ∧
      (∃ trL counts, (runExport env fs0).2.2 =
        trL ++ [Event.summary counts, .archCreate, .archChmod, .archWrite]) := by
  have hfilter := runExport_success_out_file env fs0 hok hfresh houtTmp
  refine ⟨?_, ?_, ?_⟩
  · have hmem : ({ path := env.outputArchive, perm := 0o600, complete := true } : FSFile) ∈
        (runExport env fs0).2.1.files.filter (fun f => f.path == env.outputArchive) := by
      rw [hfilter]
      exact List.mem_singleton.mpr rfl
    exact ⟨_, (List.mem_filter.mp hmem).1, rfl, rfl⟩
  · intro f hfm hpath
    have hmem : f ∈ (runExport env fs0).2.1.files.filter
        (fun f => f.path == env.outputArchive) := by
      refine List.mem_filter.mpr ⟨hfm, ?_⟩
      rw [hpath]
      exact beq_self_eq_true _
    rw [hfilter] at hmem
    rw [List.mem_singleton.mp hmem]
  · obtain ⟨htd, hm, hd, hc, hch, hw, crdList, counts, fsL, trL, hf, hl⟩ :=
      runExport_ok_inv env fs0 hok
    rw [runExport_success_eq env fs0 crdList counts fsL trL htd hf hl hm hd hc hch hw]
    exact ⟨trL, counts, rfl⟩

/-- Claim C9 witness: the permission theorem applied to the concrete successful
environment. -/
theorem export_archive_permission_witness :
    (∃ f ∈ (runExport happyEnv emptyFS).2.1.files,
        f.path = happyEnv.outputArchive ∧ f.perm = 0o600) ∧
      (∀ f ∈ (runExport happyEnv emptyFS).2.1.files,
        f.path = happyEnv.outputArchive → f.perm = 0o600) ∧
      (∃ trL counts, (runExport happyEnv emptyFS).2.2 =
        trL ++ [Event.summary counts, .archCreate, .archChmod, .archWrite]) :=
  export_archive_permission happyEnv emptyFS
    (by intro f hf2; exact absurd hf2 (List.not_mem_nil f)) (by decide) rfl

/-- Claim C3: after a successful run whose in-scope types resolve to pairwise
distinct (group, resource) keys, the summary carries, for every recorded
key, exactly the number of instance files persisted for that key during
the run, and the sum of all recorded counts equals the total number of
instance files persisted. -/
theorem export_count_invariant (env : ExportEnv) (fs0 : FS)
    (crdList : List CustomResourceDefinition)
    (hfetch : env.fetchResult = .ok crdList)
    (hnodup : (resolvedGRs env (crdList.filter shouldExport)).Nodup)
    (hok : (runExport env fs0).1 = .ok ()) :
    ∃ counts, Event.summary counts ∈ (runExport env fs0).2.2 ∧
      (∀ gr n, mapLookup counts gr = some n →
        n = persistCountFor gr (runExport env fs0).2.2) ∧
      sumCounts counts = persistTotal (runExport env fs0).2.2 := by
  obtain ⟨htd, hm, hd, hc, hch, hw, crdList2, counts, fsL, trL, hf, hl⟩ :=
    runExport_ok_inv env fs0 hok
  have hcl : crdList2 = crdList := by
    rw [hfetch] at hf
    exact (Except.ok.inj hf).symm
  subst hcl
  rw [runExport_success_eq env fs0 crdList2 counts fsL trL htd hfetch hl hm hd hc hch hw]
  obtain ⟨hA, hB, hC⟩ := exportLoop_counts env env.tmpDir (crdList2.filter shouldExport)
    [] (mkDir [env.tmpDir] fs0) counts fsL trL hl hnodup (fun _ _ => rfl)
  have htail : ∀ gr, persistCountFor gr
      (Event.summary counts :: [Event.archCreate, Event.archChmod, Event.archWrite]) = 0 :=
    fun gr => rfl
  refine ⟨counts, List.mem_append.mpr (Or.inr (List.mem_cons_self _ _)), ?_, ?_⟩
  · intro gr n hlook
    by_cases hgr : gr ∈ resolvedGRs env (crdList2.filter shouldExport)
    · have hsome := hA gr hgr
      rw [hlook] at hsome
      have hn := Option.some.inj hsome
      rw [persistCountFor_append, htail gr, Nat.add_zero]
      exact hn
    · have h0 := (hB gr hgr).1
      rw [hlook] at h0
      exact absurd h0 (by simp [mapLookup])
  · rw [persistTotal_append, hC]
    have httail : persistTotal
        (Event.summary counts :: [Event.archCreate, Event.archChmod, Event.archWrite]) = 0 := rfl
    rw [httail, Nat.add_zero]
    exact Nat.zero_add _

/-- Claim C3 witness: the count-invariant theorem applied to the concrete
successful environment over two in-scope types with two and one instances. -/
theorem export_count_invariant_witness :
    ∃ counts, Event.summary counts ∈ (runExport happyEnv emptyFS).2.2 ∧
      (∀ gr n, mapLookup counts gr = some n →
        n = persistCountFor gr (runExport happyEnv emptyFS).2.2) ∧
      sumCounts counts = persistTotal (runExport happyEnv emptyFS).2.2 :=
  export_count_invariant happyEnv emptyFS [crdXA, crdOther, crdXB] rfl (by decide) rfl

end UpExporter
